import Mathlib

namespace DecentInjection

/-!
Shallow embedding of DecentCMS/DecentInjection (`src/lib/scope.js`).

A "scope" is a JavaScript object carrying a service registry
(`services`: map from name to ordered array of service classes), an
instance cache (`instances`: map from name to array of cached
singleton instances), a `scopeName` and an optional `parentScope`.
We model the mutable object graph as an explicit `World` holding all
scopes (identified by their index), a fresh-instance counter, and a
construction log.  JavaScript reference identity of constructed
instances is modelled by the unique `Nat` allocated at construction;
reference identity of descriptors is modelled by structural equality
over a unique `did` field.  User-supplied constructor bodies, `init`
hooks and event handlers are opaque foreign code; their only effects
visible to the library are the `scope.require` calls the library
itself performs on their behalf, which the model performs literally.
Since circular dependency chains make the JavaScript code recurse
forever, every resolution function takes a fuel argument and reports
`Err.noFuel` when it runs out; theorems quantify over sufficient fuel.
-/

/-- Errors a resolution can raise.  `notFound` is the
`"Couldn't find an instance of %s on scope %s."` error of
`getSingleton` (carrying the service name and the required scope
name); `typeError` stands for the TypeErrors the JavaScript engine
itself raises (e.g. `indexOf` called on `undefined`). -/
inductive Err where
  | noFuel : Err
  | notFound (service : String) (scopeName : String) : Err
  | typeError : Err
deriving DecidableEq, Repr

/-- A class-like service descriptor: the metadata `scope.js` reads off
a registered `ServiceClass`.  `did` models JavaScript object identity.
`isFunc` is `typeof ServiceClass === 'function'`; `methods` lists the
method names present on the instances this descriptor produces
(prototype methods, or own properties of a static object). -/
structure ClassDesc where
  did : Nat
  isFunc : Bool
  isStatic : Bool
  transient : Bool
  scopeAff : Option String
  inject : Option (List String)
  injectProps : List (String × String)
  methods : List String
deriving DecidableEq, Repr

/-- A registered descriptor: either a class-like descriptor or a scope
object itself (scopes self-register under their own name). -/
inductive Desc where
  | cls (c : ClassDesc)
  | scopeRef (sid : Nat)
deriving DecidableEq, Repr

/-- Run-time values that `require`/`getServices` can produce.
`objV` is a freshly constructed instance (identified by its allocation
number), `staticV` a static descriptor returned as-is, `scopeV` a
scope object, `optionsV` an options object, `undefV` JavaScript's
`undefined`, `nullV` JavaScript's `null`. -/
inductive Value where
  | nullV
  | undefV
  | scopeV (sid : Nat)
  | staticV (c : ClassDesc)
  | objV (iid : Nat)
  | optionsV (oid : Nat)
deriving DecidableEq, Repr

/-- Record of one constructor invocation: the instance allocated, the
descriptor constructed, and the exact argument list passed. -/
structure CtorRec where
  iid : Nat
  desc : ClassDesc
  args : List Value
deriving DecidableEq, Repr

/-- One scope object. -/
structure Scope where
  scopeName : String
  parentScope : Option Nat
  services : List (String × List Desc)
  instances : List (String × List (Option Value))
deriving DecidableEq, Repr

/-- The whole mutable object graph. -/
structure World where
  scopes : List Scope
  nextInst : Nat
  ctorLog : List CtorRec
  propLog : List (Value × String × Value)
deriving DecidableEq, Repr

/-- Decidable equality of resolution results, so that concrete runs of
the model can be checked by `decide`. -/
instance {ε α : Type} [DecidableEq ε] [DecidableEq α] : DecidableEq (Except ε α) := fun
  | .ok a, .ok b =>
    if h : a = b then .isTrue (by rw [h]) else .isFalse (by simp [h])
  | .ok _, .error _ => .isFalse (by simp)
  | .error _, .ok _ => .isFalse (by simp)
  | .error e, .error f =>
    if h : e = f then .isTrue (by rw [h]) else .isFalse (by simp [h])

/-! ### Association-list and slot-array helpers -/

/-- Lookup in a string-keyed association list (a JS object used as a map). -/
def lookupA {α : Type} : List (String × α) → String → Option α
  | [], _ => none
  | (k, v) :: t, key => if k = key then some v else lookupA t key

/-- Set a key in a string-keyed association list. -/
def setA {α : Type} : List (String × α) → String → α → List (String × α)
  | [], key, v => [(key, v)]
  | (k, old) :: t, key, v =>
    if k = key then (k, v) :: t else (k, old) :: setA t key v

/-- Read a slot of a (possibly sparse) instance-cache array.  Missing
indices and empty slots both read as `none` (JS `undefined`). -/
def slotGet (l : List (Option Value)) (i : Nat) : Option Value :=
  (l.get? i).join

/-- Write a slot of an instance-cache array, padding with empty slots
as JavaScript array assignment does past the current length. -/
def slotSet : List (Option Value) → Nat → Value → List (Option Value)
  | [], 0, v => [some v]
  | [], n + 1, v => none :: slotSet [] n v
  | _ :: t, 0, v => some v :: t
  | h :: t, n + 1, v => h :: slotSet t n v

/-! ### World primitives -/

/-- Fetch a scope object by identity. -/
def scopeAt (w : World) (sid : Nat) : Option Scope :=
  w.scopes.get? sid

/-- Update the scope list at one position. -/
def updList : List Scope → Nat → (Scope → Scope) → List Scope
  | [], _, _ => []
  | h :: t, 0, f => f h :: t
  | h :: t, n + 1, f => h :: updList t n f

/-- Update one scope of the world in place. -/
def updScope (w : World) (sid : Nat) (f : Scope → Scope) : World :=
  { w with scopes := updList w.scopes sid f }

/-- `scope.instances[service] = new Array(len)` when the entry is
missing (`getSingleton` lines 66–68). -/
def allocCache (w : World) (sid : Nat) (svc : String) (len : Nat) : World :=
  updScope w sid fun sc =>
    match lookupA sc.instances svc with
    | some _ => sc
    | none => { sc with instances := setA sc.instances svc (List.replicate len none) }

/-- `scope.instances[service][i] = v`. -/
def writeSlot (w : World) (sid : Nat) (svc : String) (i : Nat) (v : Value) : World :=
  updScope w sid fun sc =>
    let slots := match lookupA sc.instances svc with
                 | some s => s
                 | none => []
    { sc with instances := setA sc.instances svc (slotSet slots i v) }

/-- Read `scope.instances[svc][i]` of a world. -/
def slotAt (w : World) (sid : Nat) (svc : String) (i : Nat) : Option Value :=
  match scopeAt w sid with
  | none => none
  | some sc =>
    match lookupA sc.instances svc with
    | none => none
    | some slots => slotGet slots i

/-! ### Descriptor accessors (how `scope.js` reads properties off a
registered `ServiceClass`; a scope object registered as a service
carries none of the class metadata) -/

def Desc.isConstructible : Desc → Bool
  | .cls c => c.isFunc && !c.isStatic
  | .scopeRef _ => false

def Desc.isTransient : Desc → Bool
  | .cls c => c.transient
  | .scopeRef _ => false

def Desc.aff : Desc → Option String
  | .cls c => c.scopeAff
  | .scopeRef _ => none

def Desc.props : Desc → List (String × String)
  | .cls c => c.injectProps
  | .scopeRef _ => []

/-- The value `construct` returns when the descriptor is not a
constructible function (`instance = ServiceClass`). -/
def Desc.selfValue : Desc → Value
  | .cls c => .staticV c
  | .scopeRef i => .scopeV i

/-- The `options` value as a constructor argument (`undefined` when
not supplied). -/
def optVal : Option Nat → Value
  | some o => .optionsV o
  | none => .undefV

/-- `if (options) constructorArguments.push(options)`. -/
def optArgs : Option Nat → List Value
  | some o => [.optionsV o]
  | none => []

/-- The parent-chain walk of `getSingleton` (lines 76–78): starting
from the requesting scope itself, step to the parent until a scope
named `aff` is found or the chain is exhausted.  The fuel only guards
against cyclic parent chains, on which the JavaScript loop would never
terminate. -/
def walkScope (w : World) : Nat → Option Nat → String → Option Nat
  | _, none, _ => none
  | 0, some _, _ => none
  | fuel + 1, some sid, aff =>
    match scopeAt w sid with
    | none => none
    | some sc =>
      if sc.scopeName = aff then some sid
      else walkScope w fuel sc.parentScope aff

/-- Allocate a fresh instance for one constructor invocation,
recording the argument list in the construction log. -/
def ctorExtend (w : World) (c : ClassDesc) (args : List Value) : World × Value :=
  ({ w with nextInst := w.nextInst + 1,
            ctorLog := ⟨w.nextInst, c, args⟩ :: w.ctorLog },
   .objV w.nextInst)

/-- Record one `instance[propertyName] = scope.require(...)` assignment. -/
def propExtend (w : World) (inst : Value) (p : String) (v : Value) : World :=
  { w with propLog := (inst, p, v) :: w.propLog }

/-! ### The mutually recursive resolution functions -/

mutual

/-- `construct(scope, ServiceClass, options)` (scope.js lines 19–50).
Returns the new world and the instance.  Registered descriptor lists
never contain falsy entries, so the `if (!ServiceClass) return null`
guard is handled by the callers' lookups. -/
def construct : Nat → World → Nat → Desc → Option Nat → World × Except Err Value
  | 0, w, _, _, _ => (w, .error .noFuel)
  | fuel + 1, w, sid, d, opt =>
    let built : World × Except Err Value :=
      match d with
      | .cls c =>
        if c.isFunc && !c.isStatic then
          match c.inject with
          | some deps =>
            match requireMany fuel w sid deps with
            | (w1, .error e) => (w1, .error e)
            | (w1, .ok vs) =>
              let r := ctorExtend w1 c (vs ++ optArgs opt)
              (r.1, .ok r.2)
          | none =>
            let r := ctorExtend w c [.scopeV sid, optVal opt]
            (r.1, .ok r.2)
        else (w, .ok (.staticV c))
      | .scopeRef i => (w, .ok (.scopeV i))
    match built with
    | (w2, .error e) => (w2, .error e)
    | (w2, .ok inst) =>
      match injectPropsRun fuel w2 sid inst d.props with
      | (w3, .error e) => (w3, .error e)
      | (w3, .ok _) => (w3, .ok inst)
  termination_by structural f _ _ _ _ => f

/-- The `injectProperties` loop of `construct` (lines 42–48): each
declared property is resolved through `scope.require` and assigned
onto the instance (the assignment is recorded in `propLog`). -/
def injectPropsRun : Nat → World → Nat → Value → List (String × String) →
    World × Except Err Unit
  | 0, w, _, _, _ => (w, .error .noFuel)
  | _ + 1, w, _, _, [] => (w, .ok ())
  | fuel + 1, w, sid, inst, (p, svcName) :: rest =>
    match requireW fuel w sid svcName none with
    | (w1, .error e) => (w1, .error e)
    | (w1, .ok v) =>
      injectPropsRun fuel (propExtend w1 inst p v) sid inst rest
  termination_by structural f _ _ _ _ => f

/-- The `inject` mapping of `construct` (lines 24–27): resolve each
named dependency via `scope.require(name)` in list order, threading
the world left to right. -/
def requireMany : Nat → World → Nat → List String → World × Except Err (List Value)
  | 0, w, _, _ => (w, .error .noFuel)
  | _ + 1, w, _, [] => (w, .ok [])
  | fuel + 1, w, sid, n :: rest =>
    match requireW fuel w sid n none with
    | (w1, .error e) => (w1, .error e)
    | (w1, .ok v) =>
      match requireMany fuel w1 sid rest with
      | (w2, .error e) => (w2, .error e)
      | (w2, .ok vs) => (w2, .ok (v :: vs))
  termination_by structural f _ _ _ => f

/-- `scope$require(service, options)` (lines 198–207): resolve the
last registered descriptor, null on a miss, `getSingleton` for
non-transient descriptors, fresh construction for transient ones. -/
def requireW : Nat → World → Nat → String → Option Nat → World × Except Err Value
  | 0, w, _, _, _ => (w, .error .noFuel)
  | fuel + 1, w, sid, svc, opt =>
    match scopeAt w sid with
    | none => (w, .error .typeError)
    | some sc =>
      match lookupA sc.services svc with
      | none => (w, .ok .nullV)
      | some l =>
        match l.getLast? with
        | none => (w, .ok .nullV)
        | some d =>
          if d.isTransient then construct fuel w sid d opt
          else getSingleton fuel w sid svc (l.length - 1) opt
  termination_by structural f _ _ _ _ => f

/-- `getSingleton(scope, service, index, options)` (lines 62–110):
memoized lookup, parent-chain walk for scope-affine descriptors with
downward cache propagation, and the missing-scope error. -/
def getSingleton : Nat → World → Nat → String → Nat → Option Nat →
    World × Except Err Value
  | 0, w, _, _, _, _ => (w, .error .noFuel)
  | fuel + 1, w, sid, svc, i, opt =>
    match scopeAt w sid with
    | none => (w, .error .typeError)
    | some sc =>
      match lookupA sc.services svc with
      | none => (w, .error .typeError)
      | some l =>
        let w0 := allocCache w sid svc l.length
        let slots := match lookupA sc.instances svc with
                     | some s => s
                     | none => List.replicate l.length none
        match slotGet slots i with
        | some v => (w0, .ok v)
        | none =>
          match l.get? i with
          | none => (w0, .error .typeError)
          | some d =>
            match d.aff with
            | none =>
              match construct fuel w0 sid d opt with
              | (w2, .error e) => (w2, .error e)
              | (w2, .ok v) => (writeSlot w2 sid svc i v, .ok v)
            | some aff =>
              match walkScope w0 (w0.scopes.length + 1) (some sid) aff with
              | some c =>
                if c = sid then
                  if sc.scopeName ≠ aff then (w0, .error (.notFound svc aff))
                  else
                    match construct fuel w0 sid d opt with
                    | (w2, .error e) => (w2, .error e)
                    | (w2, .ok v) => (writeSlot w2 sid svc i v, .ok v)
                else
                  match scopeAt w0 c with
                  | none => (w0, .error .typeError)
                  | some csc =>
                    match lookupA csc.services svc with
                    | none => (w0, .error .typeError)
                    | some cl =>
                      match cl.findIdx? (fun x => decide (x = d)) with
                      | none =>
                        if sc.scopeName ≠ aff then (w0, .error (.notFound svc aff))
                        else
                          match construct fuel w0 sid d opt with
                          | (w2, .error e) => (w2, .error e)
                          | (w2, .ok v) => (writeSlot w2 sid svc i v, .ok v)
                      | some j =>
                        let w1 := allocCache w0 c svc cl.length
                        let cslots := match lookupA csc.instances svc with
                                      | some s => s
                                      | none => List.replicate cl.length none
                        match slotGet cslots j with
                        | some v => (writeSlot w1 sid svc i v, .ok v)
                        | none =>
                          match construct fuel w1 c d opt with
                          | (w2, .error e) => (w2, .error e)
                          | (w2, .ok v) =>
                            (writeSlot (writeSlot w2 c svc j v) sid svc i v, .ok v)
              | none =>
                if sc.scopeName ≠ aff then (w0, .error (.notFound svc aff))
                else
                  match construct fuel w0 sid d opt with
                  | (w2, .error e) => (w2, .error e)
                  | (w2, .ok v) => (writeSlot w2 sid svc i v, .ok v)
  termination_by structural f _ _ _ _ _ => f

/-- The indexed `map` of `getServices`: each descriptor is resolved in
order, transient descriptors by fresh construction, others through
`getSingleton` at their index. -/
def getServicesAux : Nat → World → Nat → String → List Desc → Nat → Option Nat →
    World × Except Err (List Value)
  | 0, w, _, _, _, _, _ => (w, .error .noFuel)
  | _ + 1, w, _, _, [], _, _ => (w, .ok [])
  | fuel + 1, w, sid, svc, d :: rest, idx, opt =>
    match (if d.isTransient then construct fuel w sid d opt
           else getSingleton fuel w sid svc idx opt) with
    | (w1, .error e) => (w1, .error e)
    | (w1, .ok v) =>
      match getServicesAux fuel w1 sid svc rest (idx + 1) opt with
      | (w2, .error e) => (w2, .error e)
      | (w2, .ok vs) => (w2, .ok (v :: vs))
  termination_by structural f _ _ _ _ _ _ => f

end
/-- `scope$getServices(service, options)` (lines 220–231): empty on a
miss, otherwise one instance per registered descriptor in order. -/
def getServicesW : Nat → World → Nat → String → Option Nat →
    World × Except Err (List Value)
  | 0, w, _, _, _ => (w, .error .noFuel)
  | fuel + 1, w, sid, svc, opt =>
    match scopeAt w sid with
    | none => (w, .error .typeError)
    | some sc =>
      match lookupA sc.services svc with
      | none => (w, .ok [])
      | some l => getServicesAux fuel w sid svc l 0 opt
/-! ### Registry operations -/

/-- `scope$register(name, ServiceClass)` (lines 166–182): append the
descriptor to the name's list, creating the list if absent.  (The
incremental `initializeService` call only runs opaque user hooks.) -/
def registerW (w : World) (sid : Nat) (svc : String) (d : Desc) : World :=
  updScope w sid fun sc =>
    match lookupA sc.services svc with
    | none => { sc with services := setA sc.services svc [d] }
    | some l => { sc with services := setA sc.services svc (l ++ [d]) }

/-- The `scope(name, objectToScope, services, parentScope)` mixin
(lines 373–403): shallow-copies the given service map, overwrites the
entry for `name` with the scope object itself, records the name and
parent, and starts with an empty instance cache.  Returns the new
world and the new scope's identity.  (`initialize()` only runs opaque
user `init` hooks and event wiring, with no effect on the modelled
state.) -/
def makeScope (w : World) (name : String) (svcMap : List (String × List Desc))
    (parent : Option Nat) : World × Nat :=
  let sid := w.scopes.length
  let sc : Scope :=
    { scopeName := name
      parentScope := parent
      services := setA svcMap name [.scopeRef sid]
      instances := [] }
  ({ w with scopes := w.scopes ++ [sc] }, sid)

/-- `scope$makeSubScope(name, subScope)` (lines 356–359): scope a new
object with a copy of this scope's current services and this scope as
parent. -/
def makeSubScope (w : World) (pid : Nat) (name : String) : World × Nat :=
  match scopeAt w pid with
  | none => makeScope w name [] none
  | some psc => makeScope w name psc.services (some pid)

/-- Parent references only point to earlier-created scopes; this is
what the creation API (`makeScope`/`makeSubScope`) guarantees, and it
rules out cyclic parent chains, on which the JavaScript walk loop
would not terminate. -/
def WFWorld (w : World) : Prop :=
  ∀ i sc, w.scopes.get? i = some sc → ∀ p, sc.parentScope = some p → p < i

/-! ### Observation predicates used by the theorems -/

/-- The registry-visible part of a scope: name, parent and service
lists.  Resolution mutates only instance caches, never this part. -/
def Scope.shape (sc : Scope) : String × Option Nat × List (String × List Desc) :=
  (sc.scopeName, sc.parentScope, sc.services)

/-- What any resolution call preserves about the world: scope count
and registry shapes are unchanged, the fresh-instance counter never
decreases, and the construction log only grows. -/
def Evolves (w w' : World) : Prop :=
  w.nextInst ≤ w'.nextInst ∧
  (∃ pre, w'.ctorLog = pre ++ w.ctorLog) ∧
  w'.scopes.length = w.scopes.length ∧
  ∀ i, (w'.scopes.get? i).map Scope.shape = (w.scopes.get? i).map Scope.shape

/-! ### callService and lifecycle -/

/-- `service[method]` presence: prototype methods of a constructed
instance (looked up through the construction log) or own methods of a
static descriptor.  Scope objects expose no user lifecycle methods. -/
def hasMethod (w : World) (v : Value) (m : String) : Bool :=
  match v with
  | .staticV c => c.methods.contains m
  | .objV k =>
    match w.ctorLog.find? (fun r => r.iid == k) with
    | some r => r.desc.methods.contains m
    | none => false
  | _ => false

/-- One argument of `scope$lifecycle`: a service/method name, or an
ad-hoc `function(options, done)` (identified by a number). -/
inductive LArg where
  | name (s : String)
  | fn (fid : Nat)
deriving DecidableEq, Repr

/-- One built lifecycle step: a method bound to an instance at build
time, or an ad-hoc function. -/
inductive Step where
  | bound (v : Value) (m : String)
  | fnStep (fid : Nat)
deriving DecidableEq, Repr

/-- The per-pair expansion of `scope$lifecycle` (lines 313–320):
`services.map(function (service) { return service[methodName].bind(service); })`.
A missing method makes `.bind` a read of `undefined` and raises a
TypeError; `methodName = none` models `arguments[++i]` being
`undefined` or not a string, whose property lookup also yields
`undefined` and hence a TypeError as soon as one instance exists. -/
def stepsFor (w : World) (m : Option String) : List Value → Except Err (List Step)
  | [] => .ok []
  | v :: rest =>
    match m with
    | none => .error .typeError
    | some mn =>
      if hasMethod w v mn then
        match stepsFor w m rest with
        | .error e => .error e
        | .ok steps => .ok (.bound v mn :: steps)
      else .error .typeError

/-- The build-time phase of `scope$lifecycle` (lines 303–321): walk the
argument list; a function becomes one step; a service name consumes
the following argument as method name and expands to one bound step
per implementation resolved by `getServices` at build time. -/
def buildSteps : Nat → World → Nat → List LArg → World × Except Err (List Step)
  | 0, w, _, _ => (w, .error .noFuel)
  | _ + 1, w, _, [] => (w, .ok [])
  | fuel + 1, w, sid, .fn f :: rest =>
    match buildSteps fuel w sid rest with
    | (w1, .error e) => (w1, .error e)
    | (w1, .ok steps) => (w1, .ok (.fnStep f :: steps))
  | fuel + 1, w, sid, .name s :: rest =>
    match getServicesW fuel w sid s none with
    | (w1, .error e) => (w1, .error e)
    | (w1, .ok svcs) =>
      let mName : Option String := match rest.head? with
        | some (.name m) => some m
        | _ => none
      match stepsFor w1 mName svcs with
      | .error e => (w1, .error e)
      | .ok steps1 =>
        match buildSteps fuel w1 sid rest.tail with
        | (w2, .error e) => (w2, .error e)
        | (w2, .ok steps) => (w2, .ok (steps1 ++ steps))
  termination_by structural f _ _ _ => f

/-- The execution phase of a built lifecycle (lines 322–347): run the
fixed step list serially; the first step whose callback reports an
error aborts the chain and hands the error to `done`; an empty list
calls `done()` immediately.  `beh` gives each opaque user step's
outcome (`none` = success); the result is the list of steps actually
executed, in order, together with the argument passed to `done`. -/
def runSteps (beh : Step → Option Nat) : List Step → List Step × Option Nat
  | [] => ([], none)
  | s :: rest =>
    match beh s with
    | some e => ([s], some e)
    | none =>
      let (t, r) := runSteps beh rest
      (s :: t, r)

/-- The execution loop of `scope$callService` (lines 245–273): call
`method` on each instance in order, skipping instances that do not
expose it; first error aborts; result is the instances whose method
actually ran, in order, and the `done` argument. -/
def runCalls (w : World) (beh : Value → Option Nat) (m : String) :
    List Value → List Value × Option Nat
  | [] => ([], none)
  | v :: rest =>
    if hasMethod w v m then
      match beh v with
      | some e => ([v], some e)
      | none =>
        let (t, r) := runCalls w beh m rest
        (v :: t, r)
    else runCalls w beh m rest

/-- `scope$callService(service, method, options, done)` (lines
243–275): resolve `getServices`, then run the call chain. -/
def callServiceExec (fuel : Nat) (w : World) (sid : Nat) (svc m : String)
    (opt : Option Nat) (beh : Value → Option Nat) :
    World × Except Err (List Value × Option Nat) :=
  match getServicesW fuel w sid svc opt with
  | (w1, .error e) => (w1, .error e)
  | (w1, .ok svcs) => (w1, .ok (runCalls w1 beh m svcs))

/-- Spec-side restatement of the callService chain contract, written
from the claim's words for comparison with `runCalls`: the instances
that expose the method respond in order; the executed calls are the
error-free prefix of the responders plus the first erroring responder
if any; `done` receives that first error or nothing. -/
def callSpec (w : World) (beh : Value → Option Nat) (m : String)
    (l : List Value) : List Value × Option Nat :=
  let responders := l.filter (fun v => hasMethod w v m)
  let pre := responders.takeWhile (fun v => (beh v).isNone)
  match responders.dropWhile (fun v => (beh v).isNone) with
  | [] => (pre, none)
  | bad :: _ => (pre ++ [bad], beh bad)

/-! ### Operation traces (for the self-registration invariant) -/

/-- The register and resolution operations a client can perform on an
existing scope. -/
inductive Op where
  | reg (sid : Nat) (svc : String) (d : Desc)
  | req (sid : Nat) (svc : String) (opt : Option Nat)
  | getSvcs (sid : Nat) (svc : String) (opt : Option Nat)
deriving DecidableEq, Repr

/-- Apply one operation, keeping the world a raised resolution leaves
behind. -/
def applyOp (fuel : Nat) (w : World) : Op → World
  | .reg sid svc d => registerW w sid svc d
  | .req sid svc opt => (requireW fuel w sid svc opt).1
  | .getSvcs sid svc opt => (getServicesW fuel w sid svc opt).1

/-- Apply a sequence of operations in order. -/
def applyOps (fuel : Nat) : World → List Op → World
  | w, [] => w
  | w, op :: rest => applyOps fuel (applyOp fuel w op) rest

/-- The self-registration invariant of a scope `sid` named `nm`: its
service entry for its own name is exactly the scope object, and its
cache slot for that entry, when filled, holds the scope object. -/
def SelfInv (sid : Nat) (nm : String) (w : World) : Prop :=
  ∃ sc, scopeAt w sid = some sc ∧ sc.scopeName = nm ∧
    lookupA sc.services nm = some [.scopeRef sid] ∧
    ∀ v, slotAt w sid nm 0 = some v → v = .scopeV sid

/-- A singleton (non-transient) constructible descriptor. -/
def c1SingD : ClassDesc := ⟨0, true, false, false, none, none, [], []⟩

/-- A transient constructible descriptor. -/
def c1TranD : ClassDesc := ⟨1, true, false, true, none, none, [], []⟩

def c1ScopeObj : Scope :=
  ⟨"s", none, [("sing", [.cls c1SingD]), ("tran", [.cls c1TranD])], []⟩

def c1World : World := ⟨[c1ScopeObj], 0, [], []⟩

/-- A transient descriptor that is a plain non-function object
(`typeof ServiceClass !== 'function'`, `transient = true`). -/
def c1StaticTransient : ClassDesc := ⟨2, false, false, true, none, none, [], []⟩

def c1CounterWorld : World :=
  ⟨[⟨"s", none, [("svc", [.cls c1StaticTransient])], []⟩], 0, [], []⟩

def c8OldD : ClassDesc := ⟨10, true, false, true, none, none, [], []⟩
def c8NewD : ClassDesc := ⟨11, true, false, true, none, none, [], []⟩
def c8StatD : ClassDesc := ⟨12, false, false, false, none, none, [], []⟩

def c8ScopeObj : Scope :=
  ⟨"s", none, [("svc", [.cls c8OldD, .cls c8NewD]), ("stat", [.cls c8StatD])], []⟩

def c8World : World := ⟨[c8ScopeObj], 0, [], []⟩

/-- A singleton descriptor whose declared owning scope does not exist
anywhere in the scope chain. -/
def c7AffD : ClassDesc := ⟨20, true, false, false, some "missing", none, [], []⟩

def c7BadWorld : World := ⟨[⟨"s", none, [("svc", [.cls c7AffD])], []⟩], 0, [], []⟩

def c7TranD : ClassDesc := ⟨21, true, false, true, none, none, [], []⟩
def c7StatD1 : ClassDesc := ⟨22, false, false, false, none, none, [], []⟩
def c7StatD2 : ClassDesc := ⟨23, true, true, false, none, none, [], []⟩

def c7ScopeObj : Scope :=
  ⟨"s", none, [("tran", [.cls c7TranD, .cls c7TranD]),
               ("stat", [.cls c7StatD1, .cls c7StatD2])], []⟩

def c7World : World := ⟨[c7ScopeObj], 0, [], []⟩

/-- A transient class with two injected dependencies. -/
def c4DepA : ClassDesc := ⟨30, false, false, false, none, none, [], []⟩
def c4DepB : ClassDesc := ⟨31, false, false, false, none, none, [], []⟩
def c4InjD : ClassDesc :=
  ⟨32, true, false, true, none, some ["depA", "depB"], [], []⟩
def c4PlainD : ClassDesc := ⟨33, true, false, true, none, none, [], []⟩

def c4ScopeObj : Scope :=
  ⟨"s", none, [("depA", [.cls c4DepA]), ("depB", [.cls c4DepB]),
               ("inj", [.cls c4InjD]), ("plain", [.cls c4PlainD])], []⟩

def c4World : World := ⟨[c4ScopeObj], 0, [], []⟩

def c2Desc (dd : Nat) (ms : List String) : ClassDesc :=
  ⟨dd, true, false, false, some "outer", none, [], ms⟩

def c2World (dd : Nat) (ms : List String) (n : Nat) (L : List CtorRec)
    (P : List (Value × String × Value)) : World :=
  (makeSubScope (makeScope ⟨[], n, L, P⟩ "outer"
      [("service", [.cls (c2Desc dd ms)])] none).1 0 "inner").1

/-- The cache-miss continuation of `getSingleton` (lines 73–109),
factored out with the allocated world `w0` and the requesting scope's
name as parameters, to state the error characterization against. -/
def gsBody (fuel : Nat) (w0 : World) (sid : Nat) (svc : String) (i : Nat)
    (opt : Option Nat) (scName : String) (d : Desc) : World × Except Err Value :=
  match d.aff with
  | none =>
    match construct fuel w0 sid d opt with
    | (w2, .error e) => (w2, .error e)
    | (w2, .ok v) => (writeSlot w2 sid svc i v, .ok v)
  | some aff =>
    match walkScope w0 (w0.scopes.length + 1) (some sid) aff with
    | some c =>
      if c = sid then
        if scName ≠ aff then (w0, .error (.notFound svc aff))
        else
          match construct fuel w0 sid d opt with
          | (w2, .error e) => (w2, .error e)
          | (w2, .ok v) => (writeSlot w2 sid svc i v, .ok v)
      else
        match scopeAt w0 c with
        | none => (w0, .error .typeError)
        | some csc =>
          match lookupA csc.services svc with
          | none => (w0, .error .typeError)
          | some cl =>
            match cl.findIdx? (fun x => decide (x = d)) with
            | none =>
              if scName ≠ aff then (w0, .error (.notFound svc aff))
              else
                match construct fuel w0 sid d opt with
                | (w2, .error e) => (w2, .error e)
                | (w2, .ok v) => (writeSlot w2 sid svc i v, .ok v)
            | some j =>
              let w1 := allocCache w0 c svc cl.length
              let cslots := match lookupA csc.instances svc with
                            | some s => s
                            | none => List.replicate cl.length none
              match slotGet cslots j with
              | some v => (writeSlot w1 sid svc i v, .ok v)
              | none =>
                match construct fuel w1 c d opt with
                | (w2, .error e) => (w2, .error e)
                | (w2, .ok v) =>
                  (writeSlot (writeSlot w2 c svc j v) sid svc i v, .ok v)
    | none =>
      if scName ≠ aff then (w0, .error (.notFound svc aff))
      else
        match construct fuel w0 sid d opt with
        | (w2, .error e) => (w2, .error e)
        | (w2, .ok v) => (writeSlot w2 sid svc i v, .ok v)

/-- The condition under which `getSingleton` raises its missing-scope
error for an uncached descriptor: a scope affinity is declared, the
requesting scope does not itself carry that name, and either the walk
up the parent chain finds no scope of that name, or the scope it finds
does not hold this descriptor in its own list for the service. -/
def AffinityUnsatisfied (w : World) (sid : Nat) (svc : String) (sc : Scope)
    (c : ClassDesc) (aff : String) : Prop :=
  c.scopeAff = some aff ∧ sc.scopeName ≠ aff ∧
    (walkScope w (w.scopes.length + 1) (some sid) aff = none ∨
     ∃ c' sc' cl, walkScope w (w.scopes.length + 1) (some sid) aff = some c' ∧
       c' ≠ sid ∧ scopeAt w c' = some sc' ∧ lookupA sc'.services svc = some cl ∧
       (Desc.cls c) ∉ cl)

def c3AffD : ClassDesc := ⟨40, true, false, false, some "outer", none, [], []⟩
def c3OtherD : ClassDesc := ⟨41, true, false, false, none, none, [], []⟩
def c3OuterScope : Scope := ⟨"outer", none, [("svc", [.cls c3OtherD])], []⟩
def c3InnerScope : Scope := ⟨"inner", some 0, [("svc", [.cls c3AffD])], []⟩

def c3World : World := ⟨[c3OuterScope, c3InnerScope], 0, [], []⟩

def c9TranD : ClassDesc := ⟨50, true, false, true, none, none, [], []⟩

/-! ### Concrete lifecycle / callService scenarios -/

def c5S1 : ClassDesc := ⟨61, false, true, false, none, none, [], ["m"]⟩
def c5S2 : ClassDesc := ⟨62, false, true, false, none, none, [], ["m"]⟩
def c5S3 : ClassDesc := ⟨63, false, true, false, none, none, [], ["m"]⟩
def c5S4 : ClassDesc := ⟨64, false, true, false, none, none, [], ["m"]⟩
def c5S5 : ClassDesc := ⟨65, false, true, false, none, none, [], ["m"]⟩

/-- Two service names with two static implementations each. -/
def c5World : World :=
  (makeScope ⟨[], 0, [], []⟩ "root"
    [("a", [.cls c5S1, .cls c5S2]), ("b", [.cls c5S3, .cls c5S4])] none).1

/-- Two (service, method) pairs plus one ad-hoc function. -/
def c5Args : List LArg := [.name "a", .name "m", .name "b", .name "m", .fn 7]

/-- The five steps the build produces, in declared order. -/
def c5Steps : List Step :=
  [.bound (.staticV c5S1) "m", .bound (.staticV c5S2) "m",
   .bound (.staticV c5S3) "m", .bound (.staticV c5S4) "m", .fnStep 7]

/-- The six steps a rebuild produces after one more registration. -/
def c5StepsAfter : List Step :=
  [.bound (.staticV c5S1) "m", .bound (.staticV c5S2) "m",
   .bound (.staticV c5S5) "m",
   .bound (.staticV c5S3) "m", .bound (.staticV c5S4) "m", .fnStep 7]

/-- A world whose "a" singletons are already cached, so that a
`getServices` resolution leaves the world unchanged. -/
def c5WitWorld : World :=
  ⟨[⟨"root", none, [("a", [.cls c5S1, .cls c5S2])],
     [("a", [some (.staticV c5S1), some (.staticV c5S2)])]⟩], 0, [], []⟩

def c6Good : ClassDesc := ⟨70, false, true, false, none, none, [], ["mm"]⟩
def c6Err : ClassDesc := ⟨71, false, true, false, none, none, [], ["mm"]⟩
def c6Tail : ClassDesc := ⟨72, false, true, false, none, none, [], ["mm"]⟩

def c6World : World :=
  ⟨[⟨"root", none, [("svc", [.cls c6Good, .cls c6Err, .cls c6Tail])], []⟩],
   0, [], []⟩

/-- A step behaviour in which exactly `c6Err`'s method reports an error. -/
def c6Beh : Value → Option Nat := fun v =>
  if v = .staticV c6Err then some 5 else none

def c10Bad : ClassDesc := ⟨75, false, true, false, none, none, [], []⟩
def c10Good : ClassDesc := ⟨76, false, true, false, none, none, [], ["m"]⟩

/-- One implementation lacking method "m" and one exposing it. -/
def c10World : World :=
  (makeScope ⟨[], 0, [], []⟩ "root" [("svc", [.cls c10Bad, .cls c10Good])] none).1

/-- The cached variant of `c10World`, on which `getServices` is pure. -/
def c10WitWorld : World :=
  ⟨[⟨"root", none, [("svc", [.cls c10Bad, .cls c10Good])],
     [("svc", [some (.staticV c10Bad), some (.staticV c10Good)])]⟩], 0, [], []⟩

/-! ### Helper lemmas about the map and slot primitives -/

theorem lookupA_setA_eq {α : Type} (l : List (String × α)) (k : String) (v : α) :
    lookupA (setA l k v) k = some v := by
  induction l with
  | nil => simp [setA, lookupA]
  | cons h t ih =>
    obtain ⟨k', v'⟩ := h
    by_cases hk : k' = k
    · simp [setA, hk, lookupA]
    · simp [setA, hk, lookupA, ih]

theorem lookupA_setA_ne {α : Type} (l : List (String × α)) (k k' : String) (v : α)
    (h : k ≠ k') : lookupA (setA l k v) k' = lookupA l k' := by
  induction l with
  | nil => simp [setA, lookupA, h]
  | cons hd t ih =>
    obtain ⟨k₀, v₀⟩ := hd
    by_cases hk : k₀ = k
    · subst hk
      simp [setA, lookupA, h]
    · simp [setA, hk, lookupA, ih]

theorem slotGet_slotSet_eq (l : List (Option Value)) (i : Nat) (v : Value) :
    slotGet (slotSet l i v) i = some v := by
  induction l generalizing i with
  | nil =>
    induction i with
    | zero => simp [slotSet, slotGet]
    | succ n ih => simpa [slotSet, slotGet] using ih
  | cons h t ih =>
    cases i with
    | zero => simp [slotSet, slotGet]
    | succ n => simpa [slotSet, slotGet] using ih n

theorem slotGet_slotSet_ne (l : List (Option Value)) (i j : Nat) (v : Value)
    (h : i ≠ j) : slotGet (slotSet l i v) j = slotGet l j := by
  induction l generalizing i j with
  | nil =>
    induction i generalizing j with
    | zero =>
      cases j with
      | zero => exact absurd rfl h
      | succ m => simp [slotSet, slotGet]
    | succ n ih =>
      cases j with
      | zero => simp [slotSet, slotGet]
      | succ m =>
        have := ih m (by omega)
        simpa [slotSet, slotGet] using this
  | cons hd t ih =>
    cases i with
    | zero =>
      cases j with
      | zero => exact absurd rfl h
      | succ m => simp [slotSet, slotGet]
    | succ n =>
      cases j with
      | zero => simp [slotSet, slotGet]
      | succ m =>
        have := ih n m (by omega)
        simpa [slotSet, slotGet] using this

theorem slotGet_replicate (n i : Nat) :
    slotGet (List.replicate n (none : Option Value)) i = none := by
  induction n generalizing i with
  | zero => simp [slotGet]
  | succ m ih =>
    cases i with
    | zero => simp [slotGet, List.replicate]
    | succ j => simpa [slotGet, List.replicate] using ih j

theorem updList_get_eq (l : List Scope) (i : Nat) (f : Scope → Scope) :
    (updList l i f).get? i = (l.get? i).map f := by
  induction l generalizing i with
  | nil => simp [updList]
  | cons h t ih =>
    cases i with
    | zero => simp [updList]
    | succ n => simpa [updList] using ih n

theorem updList_get_ne (l : List Scope) (i j : Nat) (f : Scope → Scope)
    (h : i ≠ j) : (updList l i f).get? j = l.get? j := by
  induction l generalizing i j with
  | nil => simp [updList]
  | cons hd t ih =>
    cases i with
    | zero =>
      cases j with
      | zero => exact absurd rfl h
      | succ m => simp [updList]
    | succ n =>
      cases j with
      | zero => simp [updList]
      | succ m => simpa [updList] using ih n m (by omega)

theorem updList_length (l : List Scope) (i : Nat) (f : Scope → Scope) :
    (updList l i f).length = l.length := by
  induction l generalizing i with
  | nil => simp [updList]
  | cons h t ih =>
    cases i with
    | zero => simp [updList]
    | succ n => simpa [updList] using ih n

/-! ### Evolution: what any resolution call preserves -/

theorem evolves_refl (w : World) : Evolves w w :=
  ⟨le_refl _, ⟨[], rfl⟩, rfl, fun _ => rfl⟩

theorem evolves_trans {w w' w'' : World} (h : Evolves w w') (h' : Evolves w' w'') :
    Evolves w w'' := by
  obtain ⟨h1, ⟨p1, hp1⟩, h3, h4⟩ := h
  obtain ⟨g1, ⟨p2, hp2⟩, g3, g4⟩ := h'
  exact ⟨le_trans h1 g1, ⟨p2 ++ p1, by rw [hp2, hp1, List.append_assoc]⟩,
    g3.trans h3, fun i => (g4 i).trans (h4 i)⟩

theorem evolves_updScope (w : World) (sid : Nat) (f : Scope → Scope)
    (hf : ∀ sc, Scope.shape (f sc) = Scope.shape sc) :
    Evolves w (updScope w sid f) := by
  refine ⟨le_refl _, ⟨[], rfl⟩, updList_length _ _ _, ?_⟩
  intro i
  by_cases h : sid = i
  · subst h
    show ((updList w.scopes sid f).get? sid).map Scope.shape = _
    rw [updList_get_eq]
    cases w.scopes.get? sid with
    | none => rfl
    | some sc => simp [hf]
  · show ((updList w.scopes sid f).get? i).map Scope.shape = _
    rw [updList_get_ne _ _ _ _ h]

theorem evolves_allocCache (w : World) (sid : Nat) (svc : String) (len : Nat) :
    Evolves w (allocCache w sid svc len) := by
  apply evolves_updScope
  intro sc
  cases lookupA sc.instances svc <;> rfl

theorem evolves_writeSlot (w : World) (sid : Nat) (svc : String) (i : Nat) (v : Value) :
    Evolves w (writeSlot w sid svc i v) := by
  apply evolves_updScope
  intro sc
  rfl

theorem evolves_ctorExtend (w : World) (c : ClassDesc) (args : List Value) :
    Evolves w (ctorExtend w c args).1 :=
  ⟨Nat.le_succ _, ⟨[⟨w.nextInst, c, args⟩], rfl⟩, rfl, fun _ => rfl⟩

theorem evolves_propExtend (w : World) (inst : Value) (p : String) (v : Value) :
    Evolves w (propExtend w inst p v) :=
  ⟨le_refl _, ⟨[], rfl⟩, rfl, fun _ => rfl⟩

theorem evolves_resolution : ∀ fuel : Nat,
    (∀ w sid d opt, Evolves w (construct fuel w sid d opt).1) ∧
    (∀ w sid inst props, Evolves w (injectPropsRun fuel w sid inst props).1) ∧
    (∀ w sid deps, Evolves w (requireMany fuel w sid deps).1) ∧
    (∀ w sid svc opt, Evolves w (requireW fuel w sid svc opt).1) ∧
    (∀ w sid svc i opt, Evolves w (getSingleton fuel w sid svc i opt).1) ∧
    (∀ w sid svc l idx opt, Evolves w (getServicesAux fuel w sid svc l idx opt).1) := by
  intro fuel
  induction fuel with
  | zero =>
    refine ⟨?_, ?_, ?_, ?_, ?_, ?_⟩ <;> intros <;> exact evolves_refl _
  | succ n ih =>
    obtain ⟨ihC, ihP, ihM, ihR, ihG, ihA⟩ := ih
    refine ⟨?_, ?_, ?_, ?_, ?_, ?_⟩
    · -- construct
      intro w sid d opt
      simp only [construct]
      cases d with
      | scopeRef i =>
        simp only [Desc.props]
        split
        all_goals
          rename_i heq
          have h := ihP w sid (Value.scopeV i) []
          rw [heq] at h
          exact h
      | cls c =>
        simp only [Desc.props]
        by_cases hfs : (c.isFunc && !c.isStatic) = true
        · rw [if_pos hfs]
          rcases hinj : c.inject with _ | deps
          all_goals dsimp only
          · -- inject absent
            split
            all_goals
              rename_i heq
              have h2 := evolves_ctorExtend w c [Value.scopeV sid, optVal opt]
              have h3 := ihP (ctorExtend w c [Value.scopeV sid, optVal opt]).1 sid
                (ctorExtend w c [Value.scopeV sid, optVal opt]).2 c.injectProps
              rw [heq] at h3
              exact evolves_trans h2 h3
          · -- inject present
            rcases hm : requireMany n w sid deps with ⟨w1, r1⟩
            cases r1 with
            | error e =>
              dsimp only
              have h := ihM w sid deps
              rw [hm] at h
              exact h
            | ok vs =>
              dsimp only
              split
              all_goals
                rename_i heq
                have h1 := ihM w sid deps
                rw [hm] at h1
                have h2 := evolves_ctorExtend w1 c (vs ++ optArgs opt)
                have h3 := ihP (ctorExtend w1 c (vs ++ optArgs opt)).1 sid
                  (ctorExtend w1 c (vs ++ optArgs opt)).2 c.injectProps
                rw [heq] at h3
                exact evolves_trans h1 (evolves_trans h2 h3)
        · rw [if_neg hfs]
          dsimp only
          split
          all_goals
            rename_i heq
            have h := ihP w sid (Value.staticV c) c.injectProps
            rw [heq] at h
            exact h
    · -- injectPropsRun
      intro w sid inst props
      cases props with
      | nil => exact evolves_refl _
      | cons pr rest =>
        obtain ⟨p, svcName⟩ := pr
        simp only [injectPropsRun]
        rcases hr : requireW n w sid svcName none with ⟨w1, r1⟩
        cases r1 with
        | error e =>
          dsimp only
          have h := ihR w sid svcName none
          rw [hr] at h
          exact h
        | ok v =>
          dsimp only
          have h1 := ihR w sid svcName none
          rw [hr] at h1
          exact evolves_trans h1 (evolves_trans (evolves_propExtend w1 inst p v)
            (ihP _ sid inst rest))
    · -- requireMany
      intro w sid deps
      cases deps with
      | nil => exact evolves_refl _
      | cons nm rest =>
        simp only [requireMany]
        rcases hr : requireW n w sid nm none with ⟨w1, r1⟩
        cases r1 with
        | error e =>
          dsimp only
          have h := ihR w sid nm none
          rw [hr] at h
          exact h
        | ok v =>
          dsimp only
          have h1 := ihR w sid nm none
          rw [hr] at h1
          rcases hm : requireMany n w1 sid rest with ⟨w2, r2⟩
          have h2 := ihM w1 sid rest
          rw [hm] at h2
          cases r2 <;> dsimp only <;> exact evolves_trans h1 h2
    · -- requireW
      intro w sid svc opt
      simp only [requireW]
      split
      · exact evolves_refl _
      split
      · exact evolves_refl _
      split
      · exact evolves_refl _
      split
      · exact ihC _ _ _ _
      · exact ihG _ _ _ _ _
    · -- getSingleton
      intro w sid svc i opt
      simp only [getSingleton]
      split
      · exact evolves_refl _
      rename_i sc hsc
      split
      · exact evolves_refl _
      rename_i l hl
      have hA0 : Evolves w (allocCache w sid svc l.length) :=
        evolves_allocCache w sid svc l.length
      set w0 := allocCache w sid svc l.length with hw0
      split
      · -- cache hit
        exact hA0
      split
      · -- index out of range
        exact hA0
      rename_i d hd
      split
      · -- no affinity: construct locally and cache
        split
        all_goals rename_i heq
        · have h := ihC w0 sid d opt
          rw [heq] at h
          exact evolves_trans hA0 h
        · have h := ihC w0 sid d opt
          rw [heq] at h
          exact evolves_trans hA0
            (evolves_trans h (evolves_writeSlot _ sid svc i _))
      rename_i aff haff
      split
      · -- walk found a scope
        rename_i c hc
        split
        · -- c = sid
          split
          · exact hA0
          · split
            all_goals rename_i heq
            · have h := ihC w0 sid d opt
              rw [heq] at h
              exact evolves_trans hA0 h
            · have h := ihC w0 sid d opt
              rw [heq] at h
              exact evolves_trans hA0
                (evolves_trans h (evolves_writeSlot _ sid svc i _))
        · -- c ≠ sid
          split
          · exact hA0
          rename_i csc hcsc
          split
          · exact hA0
          rename_i cl hcl
          split
          · -- descriptor not found in ancestor list
            split
            · exact hA0
            · split
              all_goals rename_i heq
              · have h := ihC w0 sid d opt
                rw [heq] at h
                exact evolves_trans hA0 h
              · have h := ihC w0 sid d opt
                rw [heq] at h
                exact evolves_trans hA0
                  (evolves_trans h (evolves_writeSlot _ sid svc i _))
          · -- descriptor found at index j in ancestor
            rename_i j hj
            have hA1 : Evolves w0 (allocCache w0 c svc cl.length) :=
              evolves_allocCache w0 c svc cl.length
            set w1 := allocCache w0 c svc cl.length with hw1
            split
            · -- ancestor cache hit: propagate down
              exact evolves_trans hA0
                (evolves_trans hA1 (evolves_writeSlot _ sid svc i _))
            · -- construct in ancestor, cache in both
              split
              all_goals rename_i heq
              · have h := ihC w1 c d opt
                rw [heq] at h
                exact evolves_trans hA0 (evolves_trans hA1 h)
              · have h := ihC w1 c d opt
                rw [heq] at h
                exact evolves_trans hA0 (evolves_trans hA1
                  (evolves_trans h (evolves_trans
                    (evolves_writeSlot _ c svc j _)
                    (evolves_writeSlot _ sid svc i _))))
      · -- walk exhausted
        split
        · exact hA0
        · split
          all_goals rename_i heq
          · have h := ihC w0 sid d opt
            rw [heq] at h
            exact evolves_trans hA0 h
          · have h := ihC w0 sid d opt
            rw [heq] at h
            exact evolves_trans hA0
              (evolves_trans h (evolves_writeSlot _ sid svc i _))
    · -- getServicesAux
      intro w sid svc l idx opt
      cases l with
      | nil => exact evolves_refl _
      | cons d rest =>
        simp only [getServicesAux]
        rcases hr : (if d.isTransient = true then construct n w sid d opt
            else getSingleton n w sid svc idx opt) with ⟨w1, r1⟩
        have h1 : Evolves w w1 := by
          by_cases ht : d.isTransient = true
          · rw [if_pos ht] at hr
            have h := ihC w sid d opt
            rw [hr] at h
            exact h
          · rw [if_neg ht] at hr
            have h := ihG w sid svc idx opt
            rw [hr] at h
            exact h
        cases r1 with
        | error e =>
          dsimp only
          exact h1
        | ok v =>
          dsimp only
          rcases hm : getServicesAux n w1 sid svc rest (idx + 1) opt with ⟨w2, r2⟩
          have h2 := ihA w1 sid svc rest (idx + 1) opt
          rw [hm] at h2
          cases r2 <;> dsimp only <;> exact evolves_trans h1 h2

theorem construct_evolves (fuel : Nat) (w : World) (sid : Nat) (d : Desc)
    (opt : Option Nat) : Evolves w (construct fuel w sid d opt).1 :=
  (evolves_resolution fuel).1 w sid d opt

theorem requireW_evolves (fuel : Nat) (w : World) (sid : Nat) (svc : String)
    (opt : Option Nat) : Evolves w (requireW fuel w sid svc opt).1 :=
  (evolves_resolution fuel).2.2.2.1 w sid svc opt

theorem getSingleton_evolves (fuel : Nat) (w : World) (sid : Nat) (svc : String)
    (i : Nat) (opt : Option Nat) : Evolves w (getSingleton fuel w sid svc i opt).1 :=
  (evolves_resolution fuel).2.2.2.2.1 w sid svc i opt

theorem requireMany_evolves (fuel : Nat) (w : World) (sid : Nat) (deps : List String) :
    Evolves w (requireMany fuel w sid deps).1 :=
  (evolves_resolution fuel).2.2.1 w sid deps

theorem getServicesAux_evolves (fuel : Nat) (w : World) (sid : Nat) (svc : String)
    (l : List Desc) (idx : Nat) (opt : Option Nat) :
    Evolves w (getServicesAux fuel w sid svc l idx opt).1 :=
  (evolves_resolution fuel).2.2.2.2.2 w sid svc l idx opt

theorem getServicesW_evolves (fuel : Nat) (w : World) (sid : Nat) (svc : String)
    (opt : Option Nat) : Evolves w (getServicesW fuel w sid svc opt).1 := by
  cases fuel with
  | zero => exact evolves_refl _
  | succ n =>
    simp only [getServicesW]
    split
    · exact evolves_refl _
    split
    · exact evolves_refl _
    · exact getServicesAux_evolves _ _ _ _ _ _ _

/-- Resolution never changes any scope's name, parent or registry. -/
theorem evolves_scopeAt_shape {w w' : World} (h : Evolves w w') {sid : Nat}
    {sc : Scope} (hsc : scopeAt w sid = some sc) :
    ∃ sc', scopeAt w' sid = some sc' ∧ sc'.scopeName = sc.scopeName ∧
      sc'.parentScope = sc.parentScope ∧ sc'.services = sc.services := by
  obtain ⟨-, -, -, h4⟩ := h
  have := h4 sid
  rw [show w.scopes.get? sid = some sc from hsc] at this
  cases hsc' : w'.scopes.get? sid with
  | none => rw [hsc'] at this; simp at this
  | some sc' =>
    rw [hsc'] at this
    have hshape : Scope.shape sc' = Scope.shape sc := Option.some.inj this
    simp only [Scope.shape, Prod.mk.injEq] at hshape
    exact ⟨sc', hsc', hshape.1, hshape.2.1, hshape.2.2⟩

theorem evolves_ctorLog_mem {w w' : World} (h : Evolves w w') {r : CtorRec}
    (hr : r ∈ w.ctorLog) : r ∈ w'.ctorLog := by
  obtain ⟨-, ⟨pre, hpre⟩, -, -⟩ := h
  rw [hpre]
  exact List.mem_append_right _ hr

theorem updList_fix (l : List Scope) (i : Nat) (f : Scope → Scope)
    (h : ∀ sc, l.get? i = some sc → f sc = sc) : updList l i f = l := by
  induction l generalizing i with
  | nil => rfl
  | cons hd t ih =>
    cases i with
    | zero =>
      simp only [updList]
      rw [h hd rfl]
    | succ n =>
      simp only [updList, List.cons.injEq, true_and]
      exact ih n (fun sc hsc => h sc hsc)

theorem scopeAt_updScope_eq (w : World) (sid : Nat) (f : Scope → Scope) :
    scopeAt (updScope w sid f) sid = (scopeAt w sid).map f := by
  simp only [scopeAt, updScope]
  exact updList_get_eq _ _ _

theorem scopeAt_updScope_ne (w : World) (sid j : Nat) (f : Scope → Scope)
    (h : sid ≠ j) : scopeAt (updScope w sid f) j = scopeAt w j := by
  simp only [scopeAt, updScope]
  exact updList_get_ne _ _ _ _ h

theorem allocCache_present {w : World} {sid : Nat} {svc : String} {sc : Scope}
    {slots : List (Option Value)} (len : Nat)
    (hsc : scopeAt w sid = some sc) (hi : lookupA sc.instances svc = some slots) :
    allocCache w sid svc len = w := by
  simp only [allocCache, updScope]
  have : updList w.scopes sid
      (fun sc => match lookupA sc.instances svc with
        | some _ => sc
        | none => { sc with instances := setA sc.instances svc (List.replicate len none) })
      = w.scopes := by
    apply updList_fix
    intro sc' hsc'
    rw [show sc' = sc by rw [scopeAt] at hsc; rw [hsc] at hsc'; exact (Option.some.inj hsc').symm]
    rw [hi]
  rw [this]

theorem slotAt_writeSlot_eq {w : World} {sid : Nat} {sc : Scope}
    (svc : String) (i : Nat) (v : Value)
    (hsc : scopeAt w sid = some sc) :
    slotAt (writeSlot w sid svc i v) sid svc i = some v := by
  simp only [slotAt, writeSlot]
  rw [scopeAt_updScope_eq, hsc]
  simp only [Option.map_some']
  rw [lookupA_setA_eq]
  exact slotGet_slotSet_eq _ _ _

/-- Every successful `getSingleton` leaves the returned instance in the
requesting scope's cache slot (all three return paths of lines 71, 92,
94–96 and 109 store through `instances[index]`). -/
theorem getSingleton_caches : ∀ (fuel : Nat) (w : World) (sid : Nat) (svc : String)
    (i : Nat) (opt : Option Nat) (w' : World) (v : Value),
    getSingleton fuel w sid svc i opt = (w', .ok v) →
    slotAt w' sid svc i = some v := by
  intro fuel w sid svc i opt w' v h
  cases fuel with
  | zero => simp [getSingleton] at h
  | succ n =>
    simp only [getSingleton] at h
    split at h
    · simp at h
    rename_i sc hsc
    split at h
    · simp at h
    rename_i l hl
    have hA0 : Evolves w (allocCache w sid svc l.length) :=
      evolves_allocCache w sid svc l.length
    split at h
    · -- cache hit
      rename_i v0 hsg
      rw [Prod.mk.injEq] at h
      obtain ⟨h1, h2⟩ := h
      injection h2 with h2
      subst h2
      rcases hli : lookupA sc.instances svc with _ | s
      · rw [hli] at hsg
        dsimp only at hsg
        rw [slotGet_replicate] at hsg
        simp at hsg
      · rw [hli] at hsg
        dsimp only at hsg
        rw [allocCache_present l.length hsc hli] at h1
        subst h1
        simp only [slotAt]
        rw [hsc]
        dsimp only
        rw [hli]
        exact hsg
    -- cache miss
    split at h
    · simp at h
    rename_i d hd
    split at h
    · -- no affinity
      split at h
      · simp at h
      · rename_i w2 v2 heq
        rw [Prod.mk.injEq] at h
        obtain ⟨h1, h2⟩ := h
        injection h2 with h2
        subst h2
        subst h1
        have hEv : Evolves w w2 := by
          have hc := construct_evolves n (allocCache w sid svc l.length) sid d opt
          rw [heq] at hc
          exact evolves_trans hA0 hc
        obtain ⟨scW, hscW, -, -, -⟩ := evolves_scopeAt_shape hEv hsc
        exact slotAt_writeSlot_eq svc i _ hscW
    rename_i aff haff
    split at h
    · -- walk found some c
      rename_i c hwalk
      split at h
      · -- c = sid
        split at h
        · simp at h
        · split at h
          · simp at h
          · rename_i w2 v2 heq
            rw [Prod.mk.injEq] at h
            obtain ⟨h1, h2⟩ := h
            injection h2 with h2
            subst h2
            subst h1
            have hEv : Evolves w w2 := by
              have hc := construct_evolves n (allocCache w sid svc l.length) sid d opt
              rw [heq] at hc
              exact evolves_trans hA0 hc
            obtain ⟨scW, hscW, -, -, -⟩ := evolves_scopeAt_shape hEv hsc
            exact slotAt_writeSlot_eq svc i _ hscW
      · -- c ≠ sid
        split at h
        · simp at h
        rename_i csc hcsc
        split at h
        · simp at h
        rename_i cl hcl
        split at h
        · -- descriptor not found in ancestor
          split at h
          · simp at h
          · split at h
            · simp at h
            · rename_i w2 v2 heq
              rw [Prod.mk.injEq] at h
              obtain ⟨h1, h2⟩ := h
              injection h2 with h2
              subst h2
              subst h1
              have hEv : Evolves w w2 := by
                have hc := construct_evolves n (allocCache w sid svc l.length) sid d opt
                rw [heq] at hc
                exact evolves_trans hA0 hc
              obtain ⟨scW, hscW, -, -, -⟩ := evolves_scopeAt_shape hEv hsc
              exact slotAt_writeSlot_eq svc i _ hscW
        · -- descriptor found at j
          rename_i j hj
          have hA1 : Evolves (allocCache w sid svc l.length)
              (allocCache (allocCache w sid svc l.length) c svc cl.length) :=
            evolves_allocCache _ c svc cl.length
          split at h
          · -- ancestor cache hit, propagate
            rename_i v0 hsg
            rw [Prod.mk.injEq] at h
            obtain ⟨h1, h2⟩ := h
            injection h2 with h2
            subst h2
            subst h1
            have hEv : Evolves w (allocCache (allocCache w sid svc l.length) c svc cl.length) :=
              evolves_trans hA0 hA1
            obtain ⟨scW, hscW, -, -, -⟩ := evolves_scopeAt_shape hEv hsc
            exact slotAt_writeSlot_eq svc i _ hscW
          · -- construct in ancestor, double write
            split at h
            · simp at h
            · rename_i w2 v2 heq
              rw [Prod.mk.injEq] at h
              obtain ⟨h1, h2⟩ := h
              injection h2 with h2
              subst h2
              subst h1
              have hEv : Evolves w (writeSlot w2 c svc j v2) := by
                have hc := construct_evolves n
                  (allocCache (allocCache w sid svc l.length) c svc cl.length) c d opt
                rw [heq] at hc
                exact evolves_trans hA0 (evolves_trans hA1
                  (evolves_trans hc (evolves_writeSlot w2 c svc j v2)))
              obtain ⟨scW, hscW, -, -, -⟩ := evolves_scopeAt_shape hEv hsc
              exact slotAt_writeSlot_eq svc i _ hscW
    · -- walk exhausted
      split at h
      · simp at h
      · split at h
        · simp at h
        · rename_i w2 v2 heq
          rw [Prod.mk.injEq] at h
          obtain ⟨h1, h2⟩ := h
          injection h2 with h2
          subst h2
          subst h1
          have hEv : Evolves w w2 := by
            have hc := construct_evolves n (allocCache w sid svc l.length) sid d opt
            rw [heq] at hc
            exact evolves_trans hA0 hc
          obtain ⟨scW, hscW, -, -, -⟩ := evolves_scopeAt_shape hEv hsc
          exact slotAt_writeSlot_eq svc i _ hscW

theorem injectPropsRun_evolves (fuel : Nat) (w : World) (sid : Nat) (inst : Value)
    (props : List (String × String)) : Evolves w (injectPropsRun fuel w sid inst props).1 :=
  (evolves_resolution fuel).2.1 w sid inst props

/-- A `require` whose non-transient last descriptor is already cached
at its index returns the cached instance and leaves the world
unchanged (lines 70–71). -/
theorem requireW_cached (fuel : Nat) {w : World} {sid : Nat} {svc : String}
    (opt : Option Nat) {sc : Scope} {l : List Desc} {d : Desc} {v : Value}
    (hsc : scopeAt w sid = some sc) (hl : lookupA sc.services svc = some l)
    (hd : l.getLast? = some d) (ht : d.isTransient = false)
    (hslot : slotAt w sid svc (l.length - 1) = some v) :
    requireW (fuel + 2) w sid svc opt = (w, .ok v) := by
  simp only [slotAt] at hslot
  rw [hsc] at hslot
  dsimp only at hslot
  rcases hli : lookupA sc.instances svc with _ | s
  · rw [hli] at hslot
    simp at hslot
  rw [hli] at hslot
  dsimp only at hslot
  show requireW (fuel + 1 + 1) w sid svc opt = (w, .ok v)
  simp only [requireW]
  rw [hsc]
  dsimp only
  rw [hl]
  dsimp only
  rw [hd]
  dsimp only
  rw [ht]
  simp only [Bool.false_eq_true, if_false]
  simp only [getSingleton]
  rw [hsc]
  dsimp only
  rw [hl]
  dsimp only
  rw [hli]
  dsimp only
  rw [hslot]
  rw [allocCache_present l.length hsc hli]

/-- A successful construction of a constructible class returns a fresh
instance: its identity is new relative to the starting world and used
up in the resulting world. -/
theorem construct_fresh {fuel : Nat} {w w' : World} {sid : Nat} {c : ClassDesc}
    {opt : Option Nat} {v : Value}
    (hc : c.isFunc = true) (hs : c.isStatic = false)
    (h : construct fuel w sid (.cls c) opt = (w', .ok v)) :
    ∃ k, v = .objV k ∧ w.nextInst ≤ k ∧ k < w'.nextInst := by
  cases fuel with
  | zero => simp [construct] at h
  | succ n =>
    simp only [construct] at h
    have hcond : (c.isFunc && !c.isStatic) = true := by rw [hc, hs]; rfl
    rw [if_pos hcond] at h
    rcases hinj : c.inject with _ | deps <;> rw [hinj] at h <;> dsimp only at h
    · -- no inject list
      split at h
      · simp at h
      · rename_i w3 u heq
        simp only [Desc.props] at heq
        rw [Prod.mk.injEq] at h
        obtain ⟨h1, h2⟩ := h
        injection h2 with h2
        refine ⟨w.nextInst, h2.symm, le_refl _, ?_⟩
        have hE := injectPropsRun_evolves n (ctorExtend w c [.scopeV sid, optVal opt]).1
          sid (ctorExtend w c [.scopeV sid, optVal opt]).2 c.injectProps
        rw [heq] at hE
        have : (ctorExtend w c [.scopeV sid, optVal opt]).1.nextInst ≤ w3.nextInst := hE.1
        simp only [ctorExtend] at this
        subst h1
        omega
    · -- inject list present
      split at h
      · simp at h
      · rename_i w1 vs hm
        simp only [Desc.props] at h
        split at hm
        · simp at hm
        · rename_i w2 vs2 hm2
          rw [Prod.mk.injEq] at hm
          obtain ⟨hm1, hm3⟩ := hm
          injection hm3 with hm3
          split at h
          · simp at h
          · rename_i w3 u heq
            rw [Prod.mk.injEq] at h
            obtain ⟨h1, h2⟩ := h
            injection h2 with h2
            refine ⟨w2.nextInst, ?_, ?_, ?_⟩
            · rw [← h2, ← hm3]
              rfl
            · have hE := requireMany_evolves n w sid deps
              rw [hm2] at hE
              exact hE.1
            · have hE := injectPropsRun_evolves n w1 sid vs c.injectProps
              rw [heq] at hE
              have h4 : w1.nextInst ≤ w3.nextInst := hE.1
              rw [← hm1] at h4
              simp only [ctorExtend] at h4
              subst h1
              omega

theorem c1_singleton_half {fuel : Nat} {w w1 : World} {sid : Nat} {svc : String}
    {opt : Option Nat} {v : Value} {sc : Scope} {l : List Desc} {d : Desc}
    (hsc : scopeAt w sid = some sc) (hl : lookupA sc.services svc = some l)
    (hd : l.getLast? = some d) (ht : d.isTransient = false)
    (h5 : requireW fuel w sid svc opt = (w1, .ok v)) :
    ∀ f₂ opt', requireW (f₂ + 2) w1 sid svc opt' = (w1, .ok v) := by
  intro f₂ opt'
  cases fuel with
  | zero => simp [requireW] at h5
  | succ n =>
    simp only [requireW] at h5
    rw [hsc] at h5
    dsimp only at h5
    rw [hl] at h5
    dsimp only at h5
    rw [hd] at h5
    dsimp only at h5
    rw [ht] at h5
    simp only [Bool.false_eq_true, if_false] at h5
    have hcache := getSingleton_caches n w sid svc (l.length - 1) opt w1 v h5
    have hEv := getSingleton_evolves n w sid svc (l.length - 1) opt
    rw [h5] at hEv
    obtain ⟨sc1, hsc1, -, -, hserv⟩ := evolves_scopeAt_shape hEv hsc
    exact requireW_cached f₂ opt' hsc1 (by rw [hserv]; exact hl) hd ht hcache

theorem c1_transient_step {fuel : Nat} {w w1 : World} {sid : Nat} {svc : String}
    {opt : Option Nat} {v : Value} {sc : Scope} {l : List Desc} {c : ClassDesc}
    (hsc : scopeAt w sid = some sc) (hl : lookupA sc.services svc = some l)
    (hd : l.getLast? = some (.cls c)) (ht : c.transient = true)
    (hcf : c.isFunc = true) (hcs : c.isStatic = false)
    (h5 : requireW fuel w sid svc opt = (w1, .ok v)) :
    ∃ k, v = .objV k ∧ w.nextInst ≤ k ∧ k < w1.nextInst := by
  cases fuel with
  | zero => simp [requireW] at h5
  | succ n =>
    simp only [requireW] at h5
    rw [hsc] at h5
    dsimp only at h5
    rw [hl] at h5
    dsimp only at h5
    rw [hd] at h5
    dsimp only at h5
    simp only [Desc.isTransient, ht, if_true] at h5
    exact construct_fresh hcf hcs h5

/-- **C1** (amended).  For a service whose last-registered descriptor
is non-transient, a second `require` after a successful one returns
the identical cached instance and leaves the world unchanged.  For a
service whose last-registered descriptor is transient *and
constructible* (a function not flagged static), two successive
successful `require` calls return distinct freshly allocated
instances.  (The claim's transient half fails for transient
descriptors that are not constructible, which resolve to the
descriptor object itself on every call; see the counterexample.) -/
theorem claim1_require_lifetimes :
    (∀ fuel w w1 sid svc opt v sc l d,
      scopeAt w sid = some sc → lookupA sc.services svc = some l →
      l.getLast? = some d → d.isTransient = false →
      requireW fuel w sid svc opt = (w1, .ok v) →
      ∀ f₂ opt', requireW (f₂ + 2) w1 sid svc opt' = (w1, .ok v)) ∧
    (∀ fuel fuel' w w1 w2 sid svc opt opt' v v' sc l c,
      scopeAt w sid = some sc → lookupA sc.services svc = some l →
      l.getLast? = some (.cls c) → c.transient = true →
      c.isFunc = true → c.isStatic = false →
      requireW fuel w sid svc opt = (w1, .ok v) →
      requireW fuel' w1 sid svc opt' = (w2, .ok v') →
      v ≠ v') := by
  constructor
  · intro fuel w w1 sid svc opt v sc l d hsc hl hd ht h5
    exact c1_singleton_half hsc hl hd ht h5
  · intro fuel fuel' w w1 w2 sid svc opt opt' v v' sc l c hsc hl hd ht hcf hcs h5 h6
    obtain ⟨k1, hv1, -, hk1⟩ := c1_transient_step hsc hl hd ht hcf hcs h5
    have hEv : Evolves w w1 := by
      have h := requireW_evolves fuel w sid svc opt
      rw [h5] at h
      exact h
    obtain ⟨sc1, hsc1, -, -, hserv⟩ := evolves_scopeAt_shape hEv hsc
    obtain ⟨k2, hv2, hk2, -⟩ :=
      c1_transient_step hsc1 (by rw [hserv]; exact hl) hd ht hcf hcs h6
    subst hv1
    subst hv2
    intro hcontra
    injection hcontra with hkk
    omega

theorem claim1_require_lifetimes_witness :
    requireW 5 (requireW 5 c1World 0 "sing" none).1 0 "sing" none
      = ((requireW 5 c1World 0 "sing" none).1, .ok (.objV 0)) ∧
    (Value.objV 0 : Value) ≠ .objV 1 := by
  constructor
  · exact claim1_require_lifetimes.1 5 c1World _ 0 "sing" none (.objV 0)
      c1ScopeObj [.cls c1SingD] (.cls c1SingD)
      (by decide) (by decide) (by decide) (by decide) (by decide) 3 none
  · exact claim1_require_lifetimes.2 5 5 c1World (requireW 5 c1World 0 "tran" none).1
      (requireW 5 (requireW 5 c1World 0 "tran" none).1 0 "tran" none).1
      0 "tran" none none (.objV 0) (.objV 1)
      c1ScopeObj [.cls c1TranD] c1TranD
      (by decide) (by decide) (by decide) (by decide) (by decide) (by decide)
      (by decide) (by decide)

/-- **C1** counterexample: a transient descriptor that is not a
function resolves to the descriptor object itself on both of two
successive `require` calls — the identical value, not distinct fresh
instances as the claim states for every transient descriptor. -/
theorem claim1_counterexample :
    (Desc.cls c1StaticTransient).isTransient = true ∧
    (requireW 5 c1CounterWorld 0 "svc" none).2 = .ok (.staticV c1StaticTransient) ∧
    (requireW 5 (requireW 5 c1CounterWorld 0 "svc" none).1 0 "svc" none).2
      = .ok (.staticV c1StaticTransient) := by decide

theorem get?_of_getLast? {α : Type} (l : List α) (d : α) (h : l.getLast? = some d) :
    l.get? (l.length - 1) = some d := by
  rw [List.get?_eq_getElem?, ← List.getLast?_eq_getElem?]
  exact h

/-- **C8**.  `require` resolves the most-recently-registered (last)
descriptor.  Part 1: `register` appends, so the registered descriptor
becomes the last one for its name.  Part 2: when the last descriptor
is transient, constructible and dependency-free, `require` performs
exactly one construction, of that descriptor (the construction log
grows by exactly its record and no earlier descriptor's).  Part 3:
when the last descriptor is a static (non-constructible) non-transient
one with no scope affinity and an empty cache slot, `require` returns
that descriptor itself. -/
theorem claim8_require_resolves_last :
    (∀ w sid svc d sc, scopeAt w sid = some sc →
      ∃ sc', scopeAt (registerW w sid svc d) sid = some sc' ∧
        ∃ l', lookupA sc'.services svc = some l' ∧ l'.getLast? = some d) ∧
    (∀ fuel w sid svc opt sc l c,
      scopeAt w sid = some sc → lookupA sc.services svc = some l →
      l.getLast? = some (.cls c) → c.transient = true →
      c.isFunc = true → c.isStatic = false →
      c.inject = none → c.injectProps = [] →
      requireW (fuel + 3) w sid svc opt =
        ({ w with nextInst := w.nextInst + 1,
                  ctorLog := ⟨w.nextInst, c, [.scopeV sid, optVal opt]⟩ :: w.ctorLog },
         .ok (.objV w.nextInst))) ∧
    (∀ fuel w sid svc opt sc l c,
      scopeAt w sid = some sc → lookupA sc.services svc = some l →
      l.getLast? = some (.cls c) → c.transient = false →
      (c.isFunc && !c.isStatic) = false → c.scopeAff = none → c.injectProps = [] →
      slotAt w sid svc (l.length - 1) = none →
      (requireW (fuel + 4) w sid svc opt).2 = .ok (.staticV c)) := by
  refine ⟨?_, ?_, ?_⟩
  · -- register appends and the new descriptor becomes last
    intro w sid svc d sc hsc
    simp only [registerW]
    rw [scopeAt_updScope_eq, hsc]
    simp only [Option.map_some']
    rcases hl : lookupA sc.services svc with _ | l
    · exact ⟨_, rfl, [d], by dsimp only; exact lookupA_setA_eq _ _ _, rfl⟩
    · refine ⟨_, rfl, l ++ [d], ?_, ?_⟩
      · dsimp only
        exact lookupA_setA_eq _ _ _
      · exact List.getLast?_concat l
  · -- transient constructible last: exactly one fresh construction of it
    intro fuel w sid svc opt sc l c hsc hl hd ht hcf hcs hinj hpr
    show requireW (fuel + 2 + 1) w sid svc opt = _
    simp only [requireW]
    rw [hsc]
    dsimp only
    rw [hl]
    dsimp only
    rw [hd]
    dsimp only
    simp only [Desc.isTransient, ht, if_true]
    show construct (fuel + 1 + 1) w sid (.cls c) opt = _
    simp only [construct]
    have hcond : (c.isFunc && !c.isStatic) = true := by rw [hcf, hcs]; rfl
    rw [if_pos hcond, hinj]
    simp only [Desc.props, hpr]
    show (match injectPropsRun (fuel + 1) (ctorExtend w c [.scopeV sid, optVal opt]).1 sid
      (ctorExtend w c [.scopeV sid, optVal opt]).2 [] with
      | (w3, Except.error e) => (w3, Except.error e)
      | (w3, Except.ok _) => (w3, Except.ok (ctorExtend w c [.scopeV sid, optVal opt]).2)) = _
    simp only [injectPropsRun]
    rfl
  · -- static non-transient last with empty slot: the descriptor itself
    intro fuel w sid svc opt sc l c hsc hl hd ht hns haff hpr hslot
    simp only [slotAt] at hslot
    rw [hsc] at hslot
    dsimp only at hslot
    show (requireW (fuel + 3 + 1) w sid svc opt).2 = _
    simp only [requireW]
    rw [hsc]
    dsimp only
    rw [hl]
    dsimp only
    rw [hd]
    dsimp only
    simp only [Desc.isTransient, ht, Bool.false_eq_true, if_false]
    simp only [getSingleton]
    rw [hsc]
    dsimp only
    rw [hl]
    dsimp only
    have hsg : slotGet (match lookupA sc.instances svc with
        | some s => s
        | none => List.replicate l.length none) (l.length - 1) = none := by
      rcases hli : lookupA sc.instances svc with _ | s
      · dsimp only
        exact slotGet_replicate _ _
      · rw [hli] at hslot
        exact hslot
    rw [hsg]
    rw [get?_of_getLast? l _ hd]
    simp only [Desc.aff, haff]
    have hcon : construct (fuel + 2) (allocCache w sid svc l.length) sid (Desc.cls c) opt
        = (allocCache w sid svc l.length, .ok (.staticV c)) := by
      show construct (fuel + 1 + 1) _ _ _ _ = _
      simp only [construct]
      simp only [hns, Bool.false_eq_true, if_false]
      simp only [Desc.props, hpr]
      simp only [injectPropsRun]
    rw [hcon]

theorem claim8_require_resolves_last_witness :
    (∃ sc', scopeAt (registerW c8World 0 "svc" (.cls c8StatD)) 0 = some sc' ∧
      ∃ l', lookupA sc'.services "svc" = some l' ∧ l'.getLast? = some (.cls c8StatD)) ∧
    requireW (1 + 3) c8World 0 "svc" none =
      ({ c8World with nextInst := c8World.nextInst + 1,
                      ctorLog := ⟨c8World.nextInst, c8NewD,
                        [.scopeV 0, optVal none]⟩ :: c8World.ctorLog },
       .ok (.objV c8World.nextInst)) ∧
    (requireW (1 + 4) c8World 0 "stat" none).2 = .ok (.staticV c8StatD) := by
  refine ⟨?_, ?_, ?_⟩
  · exact claim8_require_resolves_last.1 c8World 0 "svc" (.cls c8StatD) c8ScopeObj
      (by decide)
  · exact claim8_require_resolves_last.2.1 1 c8World 0 "svc" none c8ScopeObj
      [.cls c8OldD, .cls c8NewD] c8NewD (by decide) (by decide) (by decide)
      (by decide) (by decide) (by decide) (by decide) (by decide)
  · exact claim8_require_resolves_last.2.2 1 c8World 0 "stat" none c8ScopeObj
      [.cls c8StatD] c8StatD (by decide) (by decide) (by decide) (by decide)
      (by decide) (by decide) (by decide) (by decide)

theorem getServicesAux_length : ∀ (fuel : Nat) (w : World) (sid : Nat) (svc : String)
    (l : List Desc) (idx : Nat) (opt : Option Nat) (w' : World) (vs : List Value),
    getServicesAux fuel w sid svc l idx opt = (w', .ok vs) → vs.length = l.length := by
  intro fuel
  induction fuel with
  | zero => intro _ _ _ _ _ _ _ _ h; simp [getServicesAux] at h
  | succ n ih =>
    intro w sid svc l idx opt w' vs h
    cases l with
    | nil =>
      simp only [getServicesAux] at h
      rw [Prod.mk.injEq] at h
      obtain ⟨-, h2⟩ := h
      injection h2 with h2
      rw [← h2]
      rfl
    | cons d rest =>
      simp only [getServicesAux] at h
      split at h
      · simp at h
      · rename_i w1 v heq1
        split at h
        · simp at h
        · rename_i w2 vs2 heq2
          rw [Prod.mk.injEq] at h
          obtain ⟨-, h2⟩ := h
          injection h2 with h2
          rw [← h2]
          simp only [List.length_cons]
          rw [ih w1 sid svc rest (idx + 1) opt w2 vs2 heq2]

/-- A successful construction of a constructible class logs its
constructor invocation. -/
theorem construct_log {fuel : Nat} {w w' : World} {sid : Nat} {c : ClassDesc}
    {opt : Option Nat} {v : Value}
    (hc : c.isFunc = true) (hs : c.isStatic = false)
    (h : construct fuel w sid (.cls c) opt = (w', .ok v)) :
    ∃ k args, v = .objV k ∧ (⟨k, c, args⟩ : CtorRec) ∈ w'.ctorLog := by
  cases fuel with
  | zero => simp [construct] at h
  | succ n =>
    simp only [construct] at h
    have hcond : (c.isFunc && !c.isStatic) = true := by rw [hc, hs]; rfl
    rw [if_pos hcond] at h
    rcases hinj : c.inject with _ | deps <;> rw [hinj] at h <;> dsimp only at h
    · split at h
      · simp at h
      · rename_i w3 u heq
        simp only [Desc.props] at heq
        rw [Prod.mk.injEq] at h
        obtain ⟨h1, h2⟩ := h
        injection h2 with h2
        refine ⟨w.nextInst, [.scopeV sid, optVal opt], h2.symm, ?_⟩
        have hE := injectPropsRun_evolves n (ctorExtend w c [.scopeV sid, optVal opt]).1
          sid (ctorExtend w c [.scopeV sid, optVal opt]).2 c.injectProps
        rw [heq] at hE
        subst h1
        exact evolves_ctorLog_mem hE (by simp [ctorExtend])
    · split at h
      · simp at h
      · rename_i w1 vs hm
        simp only [Desc.props] at h
        split at hm
        · simp at hm
        · rename_i w2 vs2 hm2
          rw [Prod.mk.injEq] at hm
          obtain ⟨hm1, hm3⟩ := hm
          injection hm3 with hm3
          split at h
          · simp at h
          · rename_i w3 u heq
            rw [Prod.mk.injEq] at h
            obtain ⟨h1, h2⟩ := h
            injection h2 with h2
            refine ⟨w2.nextInst, vs2 ++ optArgs opt, ?_, ?_⟩
            · rw [← h2, ← hm3]
              rfl
            · have hE := injectPropsRun_evolves n w1 sid vs c.injectProps
              rw [heq] at hE
              subst h1
              refine evolves_ctorLog_mem hE ?_
              rw [← hm1]
              simp [ctorExtend]

theorem getServicesAux_transient_at : ∀ (fuel : Nat) (w : World) (sid : Nat)
    (svc : String) (l : List Desc) (idx : Nat) (opt : Option Nat) (w' : World)
    (vs : List Value) (i : Nat) (c : ClassDesc),
    getServicesAux fuel w sid svc l idx opt = (w', .ok vs) →
    l.get? i = some (.cls c) → c.transient = true → c.isFunc = true →
    c.isStatic = false →
    ∃ k args, vs.get? i = some (.objV k) ∧ (⟨k, c, args⟩ : CtorRec) ∈ w'.ctorLog := by
  intro fuel
  induction fuel with
  | zero => intro _ _ _ _ _ _ _ _ _ _ h; simp [getServicesAux] at h
  | succ n ih =>
    intro w sid svc l idx opt w' vs i c h hgi ht hcf hcs
    cases l with
    | nil => simp at hgi
    | cons d rest =>
      simp only [getServicesAux] at h
      split at h
      · simp at h
      · rename_i w1 v heq1
        split at h
        · simp at h
        · rename_i w2 vs2 heq2
          rw [Prod.mk.injEq] at h
          obtain ⟨hw2, h2⟩ := h
          injection h2 with h2
          subst h2
          subst hw2
          cases i with
          | zero =>
            simp only [List.get?] at hgi
            injection hgi with hgi
            subst hgi
            rw [if_pos (by simp [Desc.isTransient, ht])] at heq1
            obtain ⟨k, args, hv, hmem⟩ := construct_log hcf hcs heq1
            have hE := getServicesAux_evolves n w1 sid svc rest (idx + 1) opt
            rw [heq2] at hE
            exact ⟨k, args, by simp [hv], evolves_ctorLog_mem hE hmem⟩
          | succ j =>
            obtain ⟨k, args, hv, hmem⟩ :=
              ih w1 sid svc rest (idx + 1) opt w2 vs2 j c heq2 (by simpa using hgi) ht hcf hcs
            exact ⟨k, args, by simpa using hv, hmem⟩

theorem slotAt_writeSlot_ne {w : World} {sid : Nat} {sc : Scope}
    (svc : String) {i j : Nat} (v : Value)
    (hsc : scopeAt w sid = some sc) (hij : i ≠ j) :
    slotAt (writeSlot w sid svc i v) sid svc j = slotAt w sid svc j := by
  simp only [slotAt, writeSlot]
  rw [scopeAt_updScope_eq, hsc]
  simp only [Option.map_some']
  rw [lookupA_setA_eq]
  dsimp only
  rw [slotGet_slotSet_ne _ _ _ _ hij]
  rcases hli : lookupA sc.instances svc with _ | s
  · dsimp only
    simp [slotGet]
  · dsimp only

theorem slotAt_allocCache {w : World} {sid : Nat} {sc : Scope}
    (svc : String) (len j : Nat) (hsc : scopeAt w sid = some sc) :
    slotAt (allocCache w sid svc len) sid svc j = slotAt w sid svc j := by
  rcases hli : lookupA sc.instances svc with _ | s
  · simp only [slotAt, allocCache]
    rw [scopeAt_updScope_eq, hsc]
    simp only [Option.map_some']
    rw [hli]
    dsimp only
    rw [lookupA_setA_eq]
    dsimp only
    rw [slotGet_replicate]
  · rw [allocCache_present len hsc hli]

/-- Constructing a non-constructible descriptor with no property
injection returns the descriptor's own value without touching the
world. -/
theorem construct_static (fuel : Nat) (w : World) (sid : Nat) {d : Desc}
    (opt : Option Nat) (hns : d.isConstructible = false) (hpr : d.props = []) :
    construct (fuel + 2) w sid d opt = (w, .ok d.selfValue) := by
  cases d with
  | scopeRef i =>
    simp only [construct]
    rw [hpr]
    simp only [injectPropsRun]
    rfl
  | cls c =>
    simp only [construct]
    have : (c.isFunc && !c.isStatic) = false := by
      simpa [Desc.isConstructible] using hns
    simp only [this, Bool.false_eq_true, if_false]
    rw [hpr]
    simp only [injectPropsRun]
    rfl

/-- `getSingleton` on an uncached, affinity-free, non-constructible
descriptor stores and returns the descriptor's own value. -/
theorem getSingleton_static_step (fuel : Nat) {w : World} {sid : Nat}
    {svc : String} {idx : Nat} (opt : Option Nat) {sc : Scope} {L : List Desc}
    {d : Desc}
    (hsc : scopeAt w sid = some sc) (hL : lookupA sc.services svc = some L)
    (hgi : L.get? idx = some d) (hns : d.isConstructible = false)
    (haff : d.aff = none) (hpr : d.props = [])
    (hslot : slotAt w sid svc idx = none) :
    getSingleton (fuel + 3) w sid svc idx opt =
      (writeSlot (allocCache w sid svc L.length) sid svc idx d.selfValue,
       .ok d.selfValue) := by
  simp only [slotAt] at hslot
  rw [hsc] at hslot
  dsimp only at hslot
  show getSingleton (fuel + 2 + 1) w sid svc idx opt = _
  simp only [getSingleton]
  rw [hsc]
  dsimp only
  rw [hL]
  dsimp only
  have hsg : slotGet (match lookupA sc.instances svc with
      | some s => s
      | none => List.replicate L.length none) idx = none := by
    rcases hli : lookupA sc.instances svc with _ | s
    · dsimp only
      exact slotGet_replicate _ _
    · rw [hli] at hslot
      exact hslot
  rw [hsg]
  rw [hgi]
  dsimp only
  rw [haff]
  dsimp only
  rw [construct_static fuel (allocCache w sid svc L.length) sid opt hns hpr]

theorem getServicesAux_static_run : ∀ (l : List Desc) (fuel : Nat) (w : World)
    (sid : Nat) (svc : String) (idx : Nat) (opt : Option Nat) (sc : Scope)
    (L : List Desc),
    scopeAt w sid = some sc → lookupA sc.services svc = some L →
    (∀ j, idx ≤ j → slotAt w sid svc j = none) →
    (∀ d, d ∈ l → d.isConstructible = false ∧ d.isTransient = false ∧
      d.aff = none ∧ d.props = []) →
    L.drop idx = l →
    l.length + 4 ≤ fuel →
    (getServicesAux fuel w sid svc l idx opt).2 = .ok (l.map Desc.selfValue) := by
  intro l
  induction l with
  | nil =>
    intro fuel w sid svc idx opt sc L hsc hL hslots hstat hdrop hfuel
    obtain ⟨f, rfl⟩ : ∃ f, fuel = f + 1 := ⟨fuel - 1, by omega⟩
    simp [getServicesAux]
  | cons d rest ih =>
    intro fuel w sid svc idx opt sc L hsc hL hslots hstat hdrop hfuel
    obtain ⟨f, rfl⟩ : ∃ f, fuel = f + 4 := ⟨fuel - 4, by omega⟩
    have hgi : L.get? idx = some d := by
      have := List.get?_drop L idx 0
      rw [hdrop] at this
      simpa using this.symm
    have hrest : L.drop (idx + 1) = rest := by
      have : List.drop 1 (List.drop idx L) = List.drop (idx + 1) L :=
        List.drop_drop 1 idx L
      rw [hdrop] at this
      simpa only [List.drop_one, List.tail_cons] using this.symm
    obtain ⟨hns, hnt, haff, hpr⟩ := hstat d (List.mem_cons_self d rest)
    show (getServicesAux (f + 3 + 1) w sid svc (d :: rest) idx opt).2 = _
    simp only [getServicesAux]
    rw [if_neg (by rw [hnt]; simp)]
    rw [getSingleton_static_step f opt hsc hL hgi hns haff hpr (hslots idx (le_refl _))]
    dsimp only
    -- facts about the new world
    have hE : Evolves w (writeSlot (allocCache w sid svc L.length) sid svc idx
        d.selfValue) :=
      evolves_trans (evolves_allocCache w sid svc L.length)
        (evolves_writeSlot _ sid svc idx _)
    obtain ⟨sc1, hsc1, -, -, hserv1⟩ := evolves_scopeAt_shape hE hsc
    have hslots1 : ∀ j, idx + 1 ≤ j →
        slotAt (writeSlot (allocCache w sid svc L.length) sid svc idx d.selfValue)
          sid svc j = none := by
      intro j hj
      obtain ⟨scA, hscA', -, -, -⟩ :=
        evolves_scopeAt_shape (evolves_allocCache w sid svc L.length) hsc
      rw [slotAt_writeSlot_ne svc d.selfValue hscA' (by omega)]
      rw [slotAt_allocCache svc L.length j hsc]
      exact hslots j (by omega)
    have := ih (f + 3) _ sid svc (idx + 1) opt sc1 L hsc1
      (by rw [hserv1]; exact hL) hslots1
      (fun d' hd' => hstat d' (List.mem_cons_of_mem d hd'))
      hrest
      (by simp at hfuel ⊢; omega)
    rcases haux : getServicesAux (f + 3)
        (writeSlot (allocCache w sid svc L.length) sid svc idx d.selfValue)
        sid svc rest (idx + 1) opt with ⟨w2, r2⟩
    rw [haux] at this
    simp only at this
    rw [this]
    rfl

/-- **C7** (amended).  When no descriptor is registered for a name,
`getServices` returns the empty sequence and `require` returns null,
neither raising.  When resolution raises no error, the sequence
`getServices` returns has exactly one instance per registered
descriptor: its length equals the descriptor count; the instance at
each index holding a transient constructible descriptor is a fresh
construction of that very descriptor; and a service whose descriptors
are all static (non-constructible), non-transient and affinity-free
resolves, from an empty cache, to exactly the descriptors' own values
in registration order.  (The claim's unconditional "getServices
returns" fails when a descriptor's scope affinity is unsatisfiable:
resolution then raises; see the counterexample.) -/
theorem claim7_getServices_contract :
    (∀ fuel w sid svc opt sc, scopeAt w sid = some sc →
      lookupA sc.services svc = none →
      getServicesW (fuel + 1) w sid svc opt = (w, .ok []) ∧
      requireW (fuel + 1) w sid svc opt = (w, .ok .nullV)) ∧
    (∀ fuel w sid svc opt sc L w' vs, scopeAt w sid = some sc →
      lookupA sc.services svc = some L →
      getServicesW (fuel + 1) w sid svc opt = (w', .ok vs) →
      vs.length = L.length) ∧
    (∀ fuel w sid svc opt sc L w' vs i c, scopeAt w sid = some sc →
      lookupA sc.services svc = some L →
      getServicesW (fuel + 1) w sid svc opt = (w', .ok vs) →
      L.get? i = some (.cls c) → c.transient = true → c.isFunc = true →
      c.isStatic = false →
      ∃ k args, vs.get? i = some (.objV k) ∧ (⟨k, c, args⟩ : CtorRec) ∈ w'.ctorLog) ∧
    (∀ fuel w sid svc opt sc L, scopeAt w sid = some sc →
      lookupA sc.services svc = some L →
      (∀ j, slotAt w sid svc j = none) →
      (∀ d, d ∈ L → d.isConstructible = false ∧ d.isTransient = false ∧
        d.aff = none ∧ d.props = []) →
      L.length + 4 ≤ fuel →
      (getServicesW (fuel + 1) w sid svc opt).2 = .ok (L.map Desc.selfValue)) := by
  refine ⟨?_, ?_, ?_, ?_⟩
  · intro fuel w sid svc opt sc hsc hmiss
    constructor
    · simp only [getServicesW]
      rw [hsc]
      dsimp only
      rw [hmiss]
    · simp only [requireW]
      rw [hsc]
      dsimp only
      rw [hmiss]
  · intro fuel w sid svc opt sc L w' vs hsc hL h
    simp only [getServicesW] at h
    rw [hsc] at h
    dsimp only at h
    rw [hL] at h
    exact getServicesAux_length fuel w sid svc L 0 opt w' vs h
  · intro fuel w sid svc opt sc L w' vs i c hsc hL h hgi ht hcf hcs
    simp only [getServicesW] at h
    rw [hsc] at h
    dsimp only at h
    rw [hL] at h
    exact getServicesAux_transient_at fuel w sid svc L 0 opt w' vs i c h hgi ht hcf hcs
  · intro fuel w sid svc opt sc L hsc hL hslots hstat hfuel
    simp only [getServicesW]
    rw [hsc]
    dsimp only
    rw [hL]
    exact getServicesAux_static_run L fuel w sid svc 0 opt sc L hsc hL
      (fun j _ => hslots j) hstat (by simp) hfuel

/-- **C7** counterexample: with a registered descriptor whose scope
affinity is unsatisfiable, `getServices` does not return a sequence at
all — it raises the missing-scope error. -/
theorem claim7_counterexample :
    (getServicesW 6 c7BadWorld 0 "svc" none).2
      = .error (.notFound "svc" "missing") := by decide

theorem claim7_getServices_contract_witness :
    getServicesW 9 c7World 0 "missing" none = (c7World, .ok []) ∧
    requireW 9 c7World 0 "missing" none = (c7World, .ok .nullV) ∧
    ((getServicesW 9 c7World 0 "tran" none).2.toOption.getD []).length = 2 ∧
    (getServicesW 9 c7World 0 "stat" none).2
      = .ok [.staticV c7StatD1, .staticV c7StatD2] := by
  have h1 := claim7_getServices_contract.1 8 c7World 0 "missing" none c7ScopeObj
    (by decide) (by decide)
  have h4 := claim7_getServices_contract.2.2.2 8 c7World 0 "stat" none c7ScopeObj
    [.cls c7StatD1, .cls c7StatD2] (by decide) (by decide)
    (fun j => by simp [slotAt, c7World, c7ScopeObj, scopeAt, lookupA])
    (by decide) (by decide)
  have h2 := claim7_getServices_contract.2.1 8 c7World 0 "tran" none c7ScopeObj
    [.cls c7TranD, .cls c7TranD]
    ((getServicesW 9 c7World 0 "tran" none).1)
    ((getServicesW 9 c7World 0 "tran" none).2.toOption.getD [])
    (by decide) (by decide) (by decide)
  exact ⟨h1.1, h1.2, h2, h4⟩

theorem requireMany_length : ∀ (fuel : Nat) (w : World) (sid : Nat)
    (deps : List String) (w' : World) (vs : List Value),
    requireMany fuel w sid deps = (w', .ok vs) → vs.length = deps.length := by
  intro fuel
  induction fuel with
  | zero => intro _ _ _ _ _ h; simp [requireMany] at h
  | succ n ih =>
    intro w sid deps w' vs h
    cases deps with
    | nil =>
      simp only [requireMany] at h
      rw [Prod.mk.injEq] at h
      obtain ⟨-, h2⟩ := h
      injection h2 with h2
      rw [← h2]
      rfl
    | cons nm rest =>
      simp only [requireMany] at h
      split at h
      · simp at h
      · rename_i w1 v heq1
        split at h
        · simp at h
        · rename_i w2 vs2 heq2
          rw [Prod.mk.injEq] at h
          obtain ⟨-, h2⟩ := h
          injection h2 with h2
          rw [← h2]
          simp only [List.length_cons]
          rw [ih w1 sid rest w2 vs2 heq2]

/-- **C4**.  Constructor arguments.  Part 1: with an inject list, the
constructor receives exactly the dependency instances resolved by
`scope.require` in list order (`requireMany`), followed by the options
value exactly when options was supplied — and nothing else: the scope
is not prepended.  Part 2: `requireMany` resolves each named
dependency through `requireW` in list order, threading the state.
Part 3: one resolved value per listed dependency.  Part 4: without an
inject list, the constructor receives exactly the two arguments
(scope, options). -/
theorem claim4_construct_arguments :
    (∀ fuel w sid c opt deps w' v,
      c.inject = some deps → c.isFunc = true → c.isStatic = false →
      construct (fuel + 1) w sid (.cls c) opt = (w', .ok v) →
      ∃ k w1 vs, requireMany fuel w sid deps = (w1, .ok vs) ∧
        vs.length = deps.length ∧ v = .objV k ∧ k = w1.nextInst ∧
        (⟨k, c, vs ++ optArgs opt⟩ : CtorRec) ∈ w'.ctorLog) ∧
    (∀ fuel w w1 w2 sid nm rest v vs,
      requireW fuel w sid nm none = (w1, .ok v) →
      requireMany fuel w1 sid rest = (w2, .ok vs) →
      requireMany (fuel + 1) w sid (nm :: rest) = (w2, .ok (v :: vs))) ∧
    (∀ fuel w sid deps w' vs,
      requireMany fuel w sid deps = (w', .ok vs) → vs.length = deps.length) ∧
    (∀ fuel w sid c opt w' v,
      c.inject = none → c.isFunc = true → c.isStatic = false →
      construct (fuel + 1) w sid (.cls c) opt = (w', .ok v) →
      v = .objV w.nextInst ∧
      (⟨w.nextInst, c, [.scopeV sid, optVal opt]⟩ : CtorRec) ∈ w'.ctorLog) := by
  refine ⟨?_, ?_, ?_, ?_⟩
  · intro fuel w sid c opt deps w' v hinj hcf hcs h
    simp only [construct] at h
    have hcond : (c.isFunc && !c.isStatic) = true := by rw [hcf, hcs]; rfl
    rw [if_pos hcond, hinj] at h
    dsimp only at h
    split at h
    · simp at h
    · rename_i w1 vs hm
      simp only [Desc.props] at h
      split at hm
      · simp at hm
      · rename_i w2 vs2 hm2
        rw [Prod.mk.injEq] at hm
        obtain ⟨hm1, hm3⟩ := hm
        injection hm3 with hm3
        split at h
        · simp at h
        · rename_i w3 u heq
          rw [Prod.mk.injEq] at h
          obtain ⟨h1, h2⟩ := h
          injection h2 with h2
          refine ⟨w2.nextInst, w2, vs2, hm2, requireMany_length _ _ _ _ _ _ hm2,
            ?_, rfl, ?_⟩
          · rw [← h2, ← hm3]
            rfl
          · have hE := injectPropsRun_evolves fuel w1 sid vs c.injectProps
            rw [heq] at hE
            subst h1
            refine evolves_ctorLog_mem hE ?_
            rw [← hm1]
            simp [ctorExtend]
  · intro fuel w w1 w2 sid nm rest v vs h1 h2
    simp only [requireMany]
    rw [h1]
    dsimp only
    rw [h2]
  · exact requireMany_length
  · intro fuel w sid c opt w' v hinj hcf hcs h
    simp only [construct] at h
    have hcond : (c.isFunc && !c.isStatic) = true := by rw [hcf, hcs]; rfl
    rw [if_pos hcond, hinj] at h
    dsimp only at h
    split at h
    · simp at h
    · rename_i w3 u heq
      simp only [Desc.props] at heq
      rw [Prod.mk.injEq] at h
      obtain ⟨h1, h2⟩ := h
      injection h2 with h2
      refine ⟨h2.symm, ?_⟩
      have hE := injectPropsRun_evolves fuel (ctorExtend w c [.scopeV sid, optVal opt]).1
        sid (ctorExtend w c [.scopeV sid, optVal opt]).2 c.injectProps
      rw [heq] at hE
      subst h1
      exact evolves_ctorLog_mem hE (by simp [ctorExtend])

theorem claim4_construct_arguments_witness :
    (∃ k w1 vs, requireMany 8 c4World 0 ["depA", "depB"] = (w1, .ok vs) ∧
      vs.length = (["depA", "depB"] : List String).length ∧
      (construct 9 c4World 0 (.cls c4InjD) (some 7)).2.toOption.getD .nullV
        = .objV k ∧ k = w1.nextInst ∧
      (⟨k, c4InjD, vs ++ optArgs (some 7)⟩ : CtorRec)
        ∈ (construct 9 c4World 0 (.cls c4InjD) (some 7)).1.ctorLog) ∧
    ((construct 9 c4World 0 (.cls c4PlainD) none).2.toOption.getD .nullV
        = .objV c4World.nextInst ∧
      (⟨c4World.nextInst, c4PlainD, [.scopeV 0, optVal none]⟩ : CtorRec)
        ∈ (construct 9 c4World 0 (.cls c4PlainD) none).1.ctorLog) := by
  constructor
  · obtain ⟨k, w1, vs, hm, hlen, hv, hk, hmem⟩ :=
      claim4_construct_arguments.1 8 c4World 0 c4InjD (some 7) ["depA", "depB"]
        (construct 9 c4World 0 (.cls c4InjD) (some 7)).1
        ((construct 9 c4World 0 (.cls c4InjD) (some 7)).2.toOption.getD .nullV)
        (by decide) (by decide) (by decide) (by decide)
    exact ⟨k, w1, vs, hm, hlen, hv, hk, hmem⟩
  · exact claim4_construct_arguments.2.2.2 8 c4World 0 c4PlainD none
      (construct 9 c4World 0 (.cls c4PlainD) none).1
      ((construct 9 c4World 0 (.cls c4PlainD) none).2.toOption.getD .nullV)
      (by decide) (by decide) (by decide) (by decide)

/-- **C2**.  A singleton descriptor with scope affinity `"outer"`,
registered in an outer scope and inherited by a sub-scope `"inner"`
(ids 0 and 1 in the world built by `makeScope`/`makeSubScope`):
requested first from `inner`, the instance is constructed once on the
owning scope `outer`, cached both in outer's instance cache and in
inner's slot, and a subsequent request directly on `outer` returns the
identical instance without any state change; in the reverse request
order the same single instance is returned to both scopes; in both
orders the construction log grows by exactly one record — one instance
per (descriptor, owning-scope) pair regardless of request order. -/
theorem claim2_scope_affine_singleton (dd : Nat) (ms : List String) (n : Nat)
    (L : List CtorRec) (P : List (Value × String × Value)) :
    ((requireW 9 (c2World dd ms n L P) 1 "service" none).2 = .ok (.objV n) ∧
     slotAt (requireW 9 (c2World dd ms n L P) 1 "service" none).1 0 "service" 0
       = some (.objV n) ∧
     slotAt (requireW 9 (c2World dd ms n L P) 1 "service" none).1 1 "service" 0
       = some (.objV n) ∧
     requireW 9 (requireW 9 (c2World dd ms n L P) 1 "service" none).1 0 "service" none
       = ((requireW 9 (c2World dd ms n L P) 1 "service" none).1, .ok (.objV n)) ∧
     (requireW 9 (c2World dd ms n L P) 1 "service" none).1.ctorLog
       = ⟨n, c2Desc dd ms, [.scopeV 0, .undefV]⟩ :: L) ∧
    ((requireW 9 (c2World dd ms n L P) 0 "service" none).2 = .ok (.objV n) ∧
     (requireW 9 (requireW 9 (c2World dd ms n L P) 0 "service" none).1
        1 "service" none).2 = .ok (.objV n) ∧
     (requireW 9 (requireW 9 (c2World dd ms n L P) 0 "service" none).1
        1 "service" none).1.ctorLog
       = ⟨n, c2Desc dd ms, [.scopeV 0, .undefV]⟩ :: L) := by
  simp [c2World, c2Desc, makeScope, makeSubScope, scopeAt, requireW, getSingleton,
    construct, injectPropsRun, walkScope, lookupA, setA, allocCache, writeSlot,
    slotAt, slotGet, slotSet, updScope, updList, Desc.isTransient, Desc.aff,
    Desc.props, optVal, optArgs, List.findIdx?, ctorExtend]

/-- The parent-chain walk only reads scope names and parents, which
resolution never changes. -/
theorem walkScope_evolves {w w' : World} (h : Evolves w w') :
    ∀ (fuel : Nat) (cur : Option Nat) (aff : String),
    walkScope w' fuel cur aff = walkScope w fuel cur aff := by
  intro fuel
  induction fuel with
  | zero => intro cur aff; cases cur <;> rfl
  | succ n ih =>
    intro cur aff
    cases cur with
    | none => rfl
    | some sid =>
      obtain ⟨-, -, -, h4⟩ := h
      have hmap := h4 sid
      simp only [walkScope]
      cases hsc : w.scopes.get? sid with
      | none =>
        rw [show scopeAt w sid = none from hsc] at *
        cases hsc' : w'.scopes.get? sid with
        | none => rw [show scopeAt w' sid = none from hsc']
        | some sc' =>
          rw [hsc, hsc'] at hmap
          simp at hmap
      | some sc =>
        cases hsc' : w'.scopes.get? sid with
        | none =>
          rw [hsc, hsc'] at hmap
          simp at hmap
        | some sc' =>
          rw [show scopeAt w' sid = some sc' from hsc',
              show scopeAt w sid = some sc from hsc]
          dsimp only
          rw [hsc, hsc'] at hmap
          have hshape : Scope.shape sc' = Scope.shape sc := by
            simpa using hmap
          simp only [Scope.shape, Prod.mk.injEq] at hshape
          rw [hshape.1, hshape.2.1]
          by_cases hname : sc.scopeName = aff
          · simp [hname]
          · simp only [hname, if_false]
            exact ih _ aff

/-- Under well-formed parent references the walk never returns a scope
above its starting point. -/
theorem walkScope_le {w : World} (hWF : WFWorld w) :
    ∀ (fuel : Nat) (p : Nat) (aff : String) (r : Nat),
    walkScope w fuel (some p) aff = some r → r ≤ p := by
  intro fuel
  induction fuel with
  | zero => intro p aff r h; simp [walkScope] at h
  | succ n ih =>
    intro p aff r h
    simp only [walkScope] at h
    cases hsc : scopeAt w p with
    | none => rw [hsc] at h; simp at h
    | some sc =>
      rw [hsc] at h
      dsimp only at h
      by_cases hname : sc.scopeName = aff
      · rw [if_pos hname] at h
        injection h with h
        omega
      · rw [if_neg hname] at h
        cases hpar : sc.parentScope with
        | none => rw [hpar] at h; simp [walkScope] at h
        | some pp =>
          rw [hpar] at h
          have hlt : pp < p := hWF p sc hsc pp hpar
          have := ih pp aff r h
          omega

/-- A successful walk lands on an existing scope carrying the searched
name. -/
theorem walkScope_found {w : World} :
    ∀ (fuel : Nat) (cur : Option Nat) (aff : String) (r : Nat),
    walkScope w fuel cur aff = some r →
    ∃ sc', scopeAt w r = some sc' ∧ sc'.scopeName = aff := by
  intro fuel
  induction fuel with
  | zero => intro cur aff r h; cases cur <;> simp [walkScope] at h
  | succ n ih =>
    intro cur aff r h
    cases cur with
    | none => simp [walkScope] at h
    | some p =>
      simp only [walkScope] at h
      cases hsc : scopeAt w p with
      | none => rw [hsc] at h; simp at h
      | some sc =>
        rw [hsc] at h
        dsimp only at h
        by_cases hname : sc.scopeName = aff
        · rw [if_pos hname] at h
          injection h with h
          exact ⟨sc, h ▸ hsc, hname⟩
        · rw [if_neg hname] at h
          exact ih _ aff r h

/-- A walk that does not stop at its starting scope means the starting
scope does not carry the searched name. -/
theorem walkScope_not_self {w : World} {sid : Nat} {sc : Scope} {aff : String}
    (fuel : Nat) (hsc : scopeAt w sid = some sc)
    (h : walkScope w (fuel + 1) (some sid) aff ≠ some sid) :
    sc.scopeName ≠ aff := by
  intro hname
  apply h
  simp only [walkScope]
  rw [hsc]
  simp [hname]

/-- A dependency-free class constructs successfully given fuel. -/
theorem construct_nodeps_ok (fuel : Nat) (w : World) (sid : Nat) (c : ClassDesc)
    (opt : Option Nat) (hinj : c.inject = none) (hpr : c.injectProps = []) :
    ∃ w' v, construct (fuel + 2) w sid (.cls c) opt = (w', .ok v) := by
  by_cases hcon : (c.isFunc && !c.isStatic) = true
  · refine ⟨(ctorExtend w c [.scopeV sid, optVal opt]).1,
      (ctorExtend w c [.scopeV sid, optVal opt]).2, ?_⟩
    show construct (fuel + 1 + 1) w sid (.cls c) opt = _
    simp only [construct]
    rw [if_pos hcon, hinj]
    simp only [Desc.props, hpr]
    simp only [injectPropsRun]
  · refine ⟨w, (Desc.cls c).selfValue, ?_⟩
    exact construct_static fuel w sid opt (by simpa [Desc.isConstructible] using hcon)
      (by simp [Desc.props, hpr])

theorem getSingleton_reduce {fuel : Nat} {w : World} {sid : Nat} {svc : String}
    {i : Nat} (opt : Option Nat) {sc : Scope} {L : List Desc} {d : Desc}
    (hsc : scopeAt w sid = some sc) (hL : lookupA sc.services svc = some L)
    (hgi : L.get? i = some d) (hslot : slotAt w sid svc i = none) :
    getSingleton (fuel + 1) w sid svc i opt
      = gsBody fuel (allocCache w sid svc L.length) sid svc i opt sc.scopeName d := by
  simp only [slotAt] at hslot
  rw [hsc] at hslot
  dsimp only at hslot
  simp only [getSingleton]
  rw [hsc]
  dsimp only
  rw [hL]
  dsimp only
  have hsg : slotGet (match lookupA sc.instances svc with
      | some s => s
      | none => List.replicate L.length none) i = none := by
    rcases hli : lookupA sc.instances svc with _ | s
    · dsimp only
      exact slotGet_replicate _ _
    · rw [hli] at hslot
      exact hslot
  rw [hsg]
  rw [hgi]
  dsimp only
  rfl

/-- **C3** (amended).  For an uncached, dependency-free class
descriptor in a well-formed world, `getSingleton` raises an error
carrying a service name and a scope name exactly when the descriptor's
scope affinity is unsatisfied — which happens not only when no scope
of the declared name is reachable by the parent-chain walk (as the
claim states) but also when the walk reaches such a scope and that
scope does not hold this very descriptor in its list for the service;
the error then carries the service name and the required scope name.
Additionally, when the reached scope has no descriptor list at all for
the service, the code raises a TypeError (`indexOf` on `undefined`)
instead of returning. -/
theorem claim3_affinity_error :
    ∀ (fuel : Nat) (w : World) (sid : Nat) (svc : String) (i : Nat) (opt : Option Nat)
      (sc : Scope) (L : List Desc) (c : ClassDesc),
    WFWorld w →
    scopeAt w sid = some sc → lookupA sc.services svc = some L →
    L.get? i = some (.cls c) → c.inject = none → c.injectProps = [] →
    slotAt w sid svc i = none →
    ((∃ s r, (getSingleton (fuel + 3) w sid svc i opt).2 = .error (.notFound s r)) ↔
      ∃ aff, AffinityUnsatisfied w sid svc sc c aff) ∧
    (∀ aff, AffinityUnsatisfied w sid svc sc c aff →
      (getSingleton (fuel + 3) w sid svc i opt).2 = .error (.notFound svc aff)) ∧
    (∀ aff c' sc', c.scopeAff = some aff →
      walkScope w (w.scopes.length + 1) (some sid) aff = some c' → c' ≠ sid →
      scopeAt w c' = some sc' → lookupA sc'.services svc = none →
      (getSingleton (fuel + 3) w sid svc i opt).2 = .error .typeError) := by
  intro fuel w sid svc i opt sc L c hWF hsc hL hgi hinj hpr hslot
  have hred := @getSingleton_reduce (fuel + 2) w sid svc i opt sc L _ hsc hL hgi hslot
  have hEv0 : Evolves w (allocCache w sid svc L.length) :=
    evolves_allocCache w sid svc L.length
  have hlen0 : (allocCache w sid svc L.length).scopes.length = w.scopes.length :=
    hEv0.2.2.1
  have hwalk0 : ∀ aff, walkScope (allocCache w sid svc L.length)
      ((allocCache w sid svc L.length).scopes.length + 1) (some sid) aff
      = walkScope w (w.scopes.length + 1) (some sid) aff := by
    intro aff
    rw [hlen0]
    exact walkScope_evolves hEv0 _ _ _
  simp only [show fuel + 3 = fuel + 2 + 1 from rfl]
  rw [hred]
  rcases haff : c.scopeAff with _ | aff0
  · -- no affinity: resolution succeeds, no error of either kind
    obtain ⟨w', v, hcon⟩ :=
      construct_nodeps_ok fuel (allocCache w sid svc L.length) sid c opt hinj hpr
    have hres : gsBody (fuel + 2) (allocCache w sid svc L.length) sid svc i opt
        sc.scopeName (.cls c) = (writeSlot w' sid svc i v, .ok v) := by
      simp only [gsBody]
      rw [show (Desc.cls c).aff = c.scopeAff from rfl, haff]
      dsimp only
      rw [hcon]
    rw [hres]
    refine ⟨⟨fun h1 => ?_, fun h1 => ?_⟩, fun aff1 h1 => ?_,
      fun aff1 c' sc' ha1 _ _ _ _ => nomatch ha1⟩
    · obtain ⟨s, r, habs⟩ := h1
      simp at habs
    · obtain ⟨aff1, ha1, -⟩ := h1
      rw [haff] at ha1
      cases ha1
    · obtain ⟨ha1, -⟩ := h1
      rw [haff] at ha1
      cases ha1
  · -- an affinity is declared
    rcases hwalk : walkScope w (w.scopes.length + 1) (some sid) aff0 with _ | c'
    · -- walk exhausted: the requesting scope cannot carry the name either
      have hname : sc.scopeName ≠ aff0 := by
        refine walkScope_not_self w.scopes.length hsc ?_
        rw [hwalk]
        simp
      have hres : gsBody (fuel + 2) (allocCache w sid svc L.length) sid svc i opt
          sc.scopeName (.cls c) = (allocCache w sid svc L.length,
            .error (.notFound svc aff0)) := by
        simp only [gsBody]
        rw [show (Desc.cls c).aff = c.scopeAff from rfl, haff]
        dsimp only
        rw [hwalk0 aff0, hwalk]
        dsimp only
        rw [if_pos hname]
      rw [hres]
      refine ⟨⟨fun _ => ⟨aff0, haff, hname, Or.inl hwalk⟩, fun _ => ⟨svc, aff0, rfl⟩⟩,
        fun aff1 h1 => ?_, fun aff1 c' sc' ha1 hwk _ _ _ => ?_⟩
      · obtain ⟨ha1, -, -⟩ := h1
        rw [haff] at ha1
        injection ha1 with ha1
        rw [ha1]
      · injection ha1 with ha1
        rw [← ha1] at hwk
        rw [hwalk] at hwk
        cases hwk
    · by_cases hcsid : c' = sid
      · -- walk stopped at the requesting scope: its own name matches
        subst hcsid
        have hname : sc.scopeName = aff0 := by
          by_contra hn
          have hw' := hwalk
          simp only [walkScope] at hw'
          rw [hsc] at hw'
          dsimp only at hw'
          rw [if_neg hn] at hw'
          cases hpar : sc.parentScope with
          | none =>
            rw [hpar] at hw'
            cases w.scopes.length with
            | zero => simp [walkScope] at hw'
            | succ m => simp [walkScope] at hw'
          | some p =>
            rw [hpar] at hw'
            have h1 := walkScope_le hWF _ p aff0 c' hw'
            have h2 := hWF c' sc hsc p hpar
            omega
        obtain ⟨w', v, hcon⟩ :=
          construct_nodeps_ok fuel (allocCache w c' svc L.length) c' c opt hinj hpr
        have hres : gsBody (fuel + 2) (allocCache w c' svc L.length) c' svc i opt
            sc.scopeName (.cls c) = (writeSlot w' c' svc i v, .ok v) := by
          simp only [gsBody]
          rw [show (Desc.cls c).aff = c.scopeAff from rfl, haff]
          dsimp only
          rw [hwalk0 aff0, hwalk]
          dsimp only
          rw [if_pos rfl]
          rw [if_neg (by simp [hname])]
          rw [hcon]
        rw [hres]
        refine ⟨⟨fun h1 => ?_, fun h1 => ?_⟩, fun aff1 h1 => ?_,
          fun aff1 c'' sc'' ha1 hwk hne _ _ => ?_⟩
        · obtain ⟨s, r, habs⟩ := h1
          simp at habs
        · obtain ⟨aff1, ha1, hn1, -⟩ := h1
          rw [haff] at ha1
          injection ha1 with ha1
          exact absurd hname (ha1 ▸ hn1)
        · obtain ⟨ha1, hn1, -⟩ := h1
          rw [haff] at ha1
          injection ha1 with ha1
          exact absurd hname (ha1 ▸ hn1)
        · injection ha1 with ha1
          rw [← ha1] at hwk
          rw [hwalk] at hwk
          injection hwk with hwk
          exact absurd hwk.symm hne
      · -- walk found a strict ancestor carrying the name
        have hname : sc.scopeName ≠ aff0 := by
          refine walkScope_not_self w.scopes.length hsc ?_
          rw [hwalk]
          intro hcontra
          injection hcontra with hcontra
          exact hcsid hcontra
        obtain ⟨sc', hsc', -⟩ := walkScope_found _ _ _ _ hwalk
        obtain ⟨sc0', hsc0', -, -, hserv0'⟩ := evolves_scopeAt_shape hEv0 hsc'
        rcases hlk : lookupA sc'.services svc with _ | cl
        · -- ancestor has no list for the service: TypeError
          have hres : gsBody (fuel + 2) (allocCache w sid svc L.length) sid svc i opt
              sc.scopeName (.cls c) = (allocCache w sid svc L.length,
                .error .typeError) := by
            simp only [gsBody]
            rw [show (Desc.cls c).aff = c.scopeAff from rfl, haff]
            dsimp only
            rw [hwalk0 aff0, hwalk]
            dsimp only
            rw [if_neg hcsid]
            rw [hsc0']
            dsimp only
            rw [hserv0', hlk]
          rw [hres]
          refine ⟨⟨fun h1 => ?_, fun h1 => ?_⟩, fun aff1 h1 => ?_,
            fun aff1 c'' sc'' ha1 hwk hne hsc'' hlk'' => rfl⟩
          · obtain ⟨s, r, habs⟩ := h1
            simp at habs
          · obtain ⟨aff1, ha1, hn1, hd1⟩ := h1
            rw [haff] at ha1
            injection ha1 with ha1
            subst ha1
            rcases hd1 with hnone | ⟨c'', sc'', cl, hwk, -, hsc'', hlk'', -⟩
            · rw [hwalk] at hnone
              cases hnone
            · rw [hwalk] at hwk
              injection hwk with hwk
              subst hwk
              rw [hsc'] at hsc''
              injection hsc'' with hsc''
              subst hsc''
              rw [hlk] at hlk''
              cases hlk''
          · obtain ⟨ha1, hn1, hd1⟩ := h1
            rw [haff] at ha1
            injection ha1 with ha1
            subst ha1
            rcases hd1 with hnone | ⟨c'', sc'', cl, hwk, -, hsc'', hlk'', -⟩
            · rw [hwalk] at hnone
              cases hnone
            · rw [hwalk] at hwk
              injection hwk with hwk
              subst hwk
              rw [hsc'] at hsc''
              injection hsc'' with hsc''
              subst hsc''
              rw [hlk] at hlk''
              cases hlk''
        · -- ancestor has a list for the service
          rcases hfind : cl.findIdx? (fun x => decide (x = Desc.cls c)) with _ | j
          · -- the descriptor is absent from the ancestor's list: error
            have hnotin : (Desc.cls c) ∉ cl := by
              intro hmem
              have := List.findIdx?_eq_none_iff.mp hfind _ hmem
              simp at this
            have hres : gsBody (fuel + 2) (allocCache w sid svc L.length) sid svc i
                opt sc.scopeName (.cls c) = (allocCache w sid svc L.length,
                  .error (.notFound svc aff0)) := by
              simp only [gsBody]
              rw [show (Desc.cls c).aff = c.scopeAff from rfl, haff]
              dsimp only
              rw [hwalk0 aff0, hwalk]
              dsimp only
              rw [if_neg hcsid]
              rw [hsc0']
              dsimp only
              rw [hserv0', hlk]
              dsimp only
              rw [hfind]
              dsimp only
              rw [if_pos hname]
            rw [hres]
            refine ⟨⟨fun _ => ⟨aff0, haff, hname,
              Or.inr ⟨c', sc', cl, hwalk, hcsid, hsc', hlk, hnotin⟩⟩,
              fun _ => ⟨svc, aff0, rfl⟩⟩, fun aff1 h1 => ?_,
              fun aff1 c'' sc'' ha1 hwk hne hsc'' hlk'' => ?_⟩
            · obtain ⟨ha1, -, -⟩ := h1
              rw [haff] at ha1
              injection ha1 with ha1
              rw [ha1]
            · injection ha1 with ha1
              subst ha1
              rw [hwalk] at hwk
              injection hwk with hwk
              subst hwk
              rw [hsc'] at hsc''
              injection hsc'' with hsc''
              subst hsc''
              rw [hlk] at hlk''
              cases hlk''
          · -- the descriptor is present at index j: resolution succeeds
            have hmem : (Desc.cls c) ∈ cl := by
              by_contra hnot
              have : cl.findIdx? (fun x => decide (x = Desc.cls c)) = none :=
                List.findIdx?_eq_none_iff.mpr (fun x hx => by
                  simp only [decide_eq_false_iff_not]
                  intro hxe
                  exact hnot (hxe ▸ hx))
              rw [hfind] at this
              cases this
            have hok : ∃ wr v, gsBody (fuel + 2) (allocCache w sid svc L.length)
                sid svc i opt sc.scopeName (.cls c) = (wr, .ok v) := by
              rcases hslotj : slotGet (match lookupA sc0'.instances svc with
                  | some s => s
                  | none => List.replicate cl.length none) j with _ | v
              · obtain ⟨w2, v2, hcon⟩ := construct_nodeps_ok fuel
                  (allocCache (allocCache w sid svc L.length) c' svc cl.length)
                  c' c opt hinj hpr
                refine ⟨writeSlot (writeSlot w2 c' svc j v2) sid svc i v2, v2, ?_⟩
                simp only [gsBody]
                rw [show (Desc.cls c).aff = c.scopeAff from rfl, haff]
                dsimp only
                rw [hwalk0 aff0, hwalk]
                dsimp only
                rw [if_neg hcsid]
                rw [hsc0']
                dsimp only
                rw [hserv0', hlk]
                dsimp only
                rw [hfind]
                dsimp only
                rw [hslotj]
                dsimp only
                rw [hcon]
              · refine ⟨writeSlot (allocCache (allocCache w sid svc L.length)
                  c' svc cl.length) sid svc i v, v, ?_⟩
                simp only [gsBody]
                rw [show (Desc.cls c).aff = c.scopeAff from rfl, haff]
                dsimp only
                rw [hwalk0 aff0, hwalk]
                dsimp only
                rw [if_neg hcsid]
                rw [hsc0']
                dsimp only
                rw [hserv0', hlk]
                dsimp only
                rw [hfind]
                dsimp only
                rw [hslotj]
            obtain ⟨wr, v, hres⟩ := hok
            rw [hres]
            refine ⟨⟨fun h1 => ?_, fun h1 => ?_⟩, fun aff1 h1 => ?_,
              fun aff1 c'' sc'' ha1 hwk hne hsc'' hlk'' => ?_⟩
            · obtain ⟨s, r, habs⟩ := h1
              simp at habs
            · obtain ⟨aff1, ha1, hn1, hd1⟩ := h1
              rw [haff] at ha1
              injection ha1 with ha1
              subst ha1
              rcases hd1 with hnone | ⟨c'', sc'', cl2, hwk, -, hsc'', hlk'', hni⟩
              · rw [hwalk] at hnone
                cases hnone
              · rw [hwalk] at hwk
                injection hwk with hwk
                subst hwk
                rw [hsc'] at hsc''
                injection hsc'' with hsc''
                subst hsc''
                rw [hlk] at hlk''
                injection hlk'' with hlk''
                subst hlk''
                exact absurd hmem hni
            · obtain ⟨ha1, hn1, hd1⟩ := h1
              rw [haff] at ha1
              injection ha1 with ha1
              subst ha1
              rcases hd1 with hnone | ⟨c'', sc'', cl2, hwk, -, hsc'', hlk'', hni⟩
              · rw [hwalk] at hnone
                cases hnone
              · rw [hwalk] at hwk
                injection hwk with hwk
                subst hwk
                rw [hsc'] at hsc''
                injection hsc'' with hsc''
                subst hsc''
                rw [hlk] at hlk''
                injection hlk'' with hlk''
                subst hlk''
                exact absurd hmem hni
            · injection ha1 with ha1
              subst ha1
              rw [hwalk] at hwk
              injection hwk with hwk
              subst hwk
              rw [hsc'] at hsc''
              injection hsc'' with hsc''
              subst hsc''
              rw [hlk] at hlk''
              cases hlk''

/-- **C3** counterexample: the parent-chain walk from the requesting
scope does reach a scope named `"outer"` — the declared affinity —
yet resolution still raises the error carrying the service name and
the required scope name, because the reached scope's list for the
service does not contain this descriptor.  This contradicts the
claim's "if and only if … no scope of that name is reached". -/
theorem claim3_counterexample :
    walkScope c3World 3 (some 1) "outer" = some 0 ∧
    (getSingleton 9 c3World 1 "svc" 0 none).2 = .error (.notFound "svc" "outer") ∧
    (requireW 9 c3World 1 "svc" none).2 = .error (.notFound "svc" "outer") := by
  decide

theorem c3WF : WFWorld c3World := by
  intro i sc h p hp
  match i with
  | 0 =>
    have hsc : sc = c3OuterScope := by
      have : c3World.scopes.get? 0 = some c3OuterScope := by decide
      rw [this] at h
      exact (Option.some.inj h).symm
    rw [hsc] at hp
    cases hp
  | 1 =>
    have hsc : sc = c3InnerScope := by
      have : c3World.scopes.get? 1 = some c3InnerScope := by decide
      rw [this] at h
      exact (Option.some.inj h).symm
    rw [hsc] at hp
    injection hp with hp
    omega
  | n + 2 =>
    have : c3World.scopes.get? (n + 2) = none := by
      simp [c3World]
    rw [this] at h
    cases h

theorem claim3_affinity_error_witness :
    (getSingleton (2 + 3) c3World 1 "svc" 0 none).2
      = .error (.notFound "svc" "outer") :=
  (claim3_affinity_error 2 c3World 1 "svc" 0 none c3InnerScope [.cls c3AffD] c3AffD
    c3WF (by decide) (by decide) (by decide) (by decide) (by decide) (by decide)).2.1
    "outer" ⟨by decide, by decide,
      Or.inr ⟨0, c3OuterScope, [.cls c3OtherD], by decide, by decide, by decide,
        by decide, by decide⟩⟩

theorem slotAt_writeSlot_scope_ne {w : World} {s sid : Nat} (svc nm : String)
    (i j : Nat) (v : Value) (hne : s ≠ sid) :
    slotAt (writeSlot w s svc i v) sid nm j = slotAt w sid nm j := by
  simp only [slotAt, writeSlot]
  rw [scopeAt_updScope_ne _ _ _ _ hne]

theorem slotAt_writeSlot_svc_ne {w : World} {sid : Nat} (s : Nat) {svc nm : String}
    (i j : Nat) (v : Value) (hne : svc ≠ nm) :
    slotAt (writeSlot w s svc i v) sid nm j = slotAt w sid nm j := by
  by_cases hs : s = sid
  · subst hs
    simp only [slotAt, writeSlot]
    rw [scopeAt_updScope_eq]
    cases hsc : scopeAt w s with
    | none => rfl
    | some sc =>
      simp only [Option.map_some']
      rw [lookupA_setA_ne _ _ _ _ hne]
  · simp only [slotAt, writeSlot]
    rw [scopeAt_updScope_ne _ _ _ _ hs]

theorem slotAt_allocCache_scope_ne {w : World} {s sid : Nat} (svc nm : String)
    (len j : Nat) (hne : s ≠ sid) :
    slotAt (allocCache w s svc len) sid nm j = slotAt w sid nm j := by
  simp only [slotAt, allocCache]
  rw [scopeAt_updScope_ne _ _ _ _ hne]

/-- Allocating a cache entry can only turn a slot from absent to empty:
any filled slot keeps its value. -/
theorem slotAt_allocCache_cases (w : World) (s : Nat) (svc : String) (len : Nat)
    (sid : Nat) (nm : String) (j : Nat) :
    slotAt (allocCache w s svc len) sid nm j = slotAt w sid nm j ∨
    slotAt (allocCache w s svc len) sid nm j = none := by
  by_cases hs : s = sid
  · subst hs
    cases hsc : scopeAt w s with
    | none =>
      left
      simp only [slotAt, allocCache]
      rw [scopeAt_updScope_eq, hsc]
      rfl
    | some sc =>
      by_cases hsv : svc = nm
      · subst hsv
        rcases hli : lookupA sc.instances svc with _ | slots
        · right
          simp only [slotAt, allocCache]
          rw [scopeAt_updScope_eq, hsc]
          simp only [Option.map_some']
          rw [hli]
          dsimp only
          rw [lookupA_setA_eq]
          dsimp only
          rw [slotGet_replicate]
        · left
          rw [allocCache_present len hsc hli]
      · left
        simp only [slotAt, allocCache]
        rw [scopeAt_updScope_eq, hsc]
        simp only [Option.map_some']
        rcases hli : lookupA sc.instances svc with _ | slots
        · dsimp only
          rw [lookupA_setA_ne _ _ _ _ hsv]
        · dsimp only
  · left
    exact slotAt_allocCache_scope_ne svc nm len j hs

theorem selfInv_allocCache {sid : Nat} {nm : String} {w : World} (s : Nat)
    (svc : String) (len : Nat) (h : SelfInv sid nm w) :
    SelfInv sid nm (allocCache w s svc len) := by
  obtain ⟨sc, hsc, hname, hserv, hslot⟩ := h
  obtain ⟨sc', hsc', hname', -, hserv'⟩ :=
    evolves_scopeAt_shape (evolves_allocCache w s svc len) hsc
  refine ⟨sc', hsc', hname'.trans hname, by rw [hserv']; exact hserv, ?_⟩
  intro v hv
  rcases slotAt_allocCache_cases w s svc len sid nm 0 with hc | hc
  · rw [hc] at hv
    exact hslot v hv
  · rw [hc] at hv
    cases hv

theorem selfInv_writeSlot_other {sid : Nat} {nm : String} {w : World}
    (s : Nat) (svc : String) (i : Nat) (v : Value)
    (hother : ¬(s = sid ∧ svc = nm ∧ i = 0)) (h : SelfInv sid nm w) :
    SelfInv sid nm (writeSlot w s svc i v) := by
  obtain ⟨sc, hsc, hname, hserv, hslot⟩ := h
  obtain ⟨sc', hsc', hname', -, hserv'⟩ :=
    evolves_scopeAt_shape (evolves_writeSlot w s svc i v) hsc
  refine ⟨sc', hsc', hname'.trans hname, by rw [hserv']; exact hserv, ?_⟩
  intro u hu
  by_cases hs : s = sid
  · subst hs
    by_cases hsv : svc = nm
    · subst hsv
      have hi : i ≠ 0 := fun hi0 => hother ⟨rfl, rfl, hi0⟩
      rw [slotAt_writeSlot_ne svc v hsc hi] at hu
      exact hslot u hu
    · rw [slotAt_writeSlot_svc_ne s i 0 v hsv] at hu
      exact hslot u hu
  · rw [slotAt_writeSlot_scope_ne svc nm i 0 v hs] at hu
    exact hslot u hu

theorem selfInv_writeSlot_self {sid : Nat} {nm : String} {w : World}
    (i : Nat) (h : SelfInv sid nm w) :
    SelfInv sid nm (writeSlot w sid nm i (.scopeV sid)) := by
  obtain ⟨sc, hsc, hname, hserv, hslot⟩ := h
  obtain ⟨sc', hsc', hname', -, hserv'⟩ :=
    evolves_scopeAt_shape (evolves_writeSlot w sid nm i (.scopeV sid)) hsc
  refine ⟨sc', hsc', hname'.trans hname, by rw [hserv']; exact hserv, ?_⟩
  intro u hu
  by_cases hi : i = 0
  · subst hi
    rw [slotAt_writeSlot_eq nm 0 (.scopeV sid) hsc] at hu
    exact (Option.some.inj hu).symm
  · rw [slotAt_writeSlot_ne nm (.scopeV sid) hsc (fun hc => hi hc)] at hu
    exact hslot u hu

theorem selfInv_ctorExtend {sid : Nat} {nm : String} {w : World}
    (c : ClassDesc) (args : List Value) (h : SelfInv sid nm w) :
    SelfInv sid nm (ctorExtend w c args).1 := by
  obtain ⟨sc, hsc, hname, hserv, hslot⟩ := h
  exact ⟨sc, hsc, hname, hserv, hslot⟩

theorem selfInv_propExtend {sid : Nat} {nm : String} {w : World}
    (inst : Value) (p : String) (v : Value) (h : SelfInv sid nm w) :
    SelfInv sid nm (propExtend w inst p v) := by
  obtain ⟨sc, hsc, hname, hserv, hslot⟩ := h
  exact ⟨sc, hsc, hname, hserv, hslot⟩

/-- A scope-object descriptor resolves to the scope object itself with
no state change. -/
theorem construct_scopeRef {fuel : Nat} {w w' : World} {s k : Nat}
    {opt : Option Nat} {v : Value}
    (h : construct fuel w s (.scopeRef k) opt = (w', .ok v)) :
    w' = w ∧ v = .scopeV k := by
  cases fuel with
  | zero => simp [construct] at h
  | succ n =>
    simp only [construct] at h
    simp only [Desc.props] at h
    cases n with
    | zero => simp [injectPropsRun] at h
    | succ g =>
      simp only [injectPropsRun] at h
      rw [Prod.mk.injEq] at h
      obtain ⟨h1, h2⟩ := h
      injection h2 with h2
      exact ⟨h1.symm, h2.symm⟩

theorem selfInv_resolution (sid : Nat) (nm : String) : ∀ fuel : Nat,
    (∀ w s d opt, SelfInv sid nm w → SelfInv sid nm (construct fuel w s d opt).1) ∧
    (∀ w s inst props, SelfInv sid nm w →
      SelfInv sid nm (injectPropsRun fuel w s inst props).1) ∧
    (∀ w s deps, SelfInv sid nm w → SelfInv sid nm (requireMany fuel w s deps).1) ∧
    (∀ w s svc opt, SelfInv sid nm w → SelfInv sid nm (requireW fuel w s svc opt).1) ∧
    (∀ w s svc i opt, SelfInv sid nm w →
      SelfInv sid nm (getSingleton fuel w s svc i opt).1) ∧
    (∀ w s svc l idx opt, SelfInv sid nm w →
      SelfInv sid nm (getServicesAux fuel w s svc l idx opt).1) := by
  intro fuel
  induction fuel with
  | zero => refine ⟨?_, ?_, ?_, ?_, ?_, ?_⟩ <;> intros <;> assumption
  | succ n ih =>
    obtain ⟨ihC, ihP, ihM, ihR, ihG, ihA⟩ := ih
    refine ⟨?_, ?_, ?_, ?_, ?_, ?_⟩
    · -- construct
      intro w s d opt hInv
      simp only [construct]
      cases d with
      | scopeRef i =>
        simp only [Desc.props]
        split
        all_goals
          rename_i heq
          have h := ihP w s (Value.scopeV i) [] hInv
          rw [heq] at h
          exact h
      | cls c =>
        simp only [Desc.props]
        by_cases hfs : (c.isFunc && !c.isStatic) = true
        · rw [if_pos hfs]
          rcases hinj : c.inject with _ | deps
          all_goals dsimp only
          · split
            all_goals
              rename_i heq
              have h3 := ihP (ctorExtend w c [Value.scopeV s, optVal opt]).1 s
                (ctorExtend w c [Value.scopeV s, optVal opt]).2 c.injectProps
                (selfInv_ctorExtend c [Value.scopeV s, optVal opt] hInv)
              rw [heq] at h3
              exact h3
          · rcases hm : requireMany n w s deps with ⟨w1, r1⟩
            have h1 : SelfInv sid nm w1 := by
              have h := ihM w s deps hInv
              rw [hm] at h
              exact h
            cases r1 with
            | error e =>
              dsimp only
              exact h1
            | ok vs =>
              dsimp only
              split
              all_goals
                rename_i heq
                have h3 := ihP (ctorExtend w1 c (vs ++ optArgs opt)).1 s
                  (ctorExtend w1 c (vs ++ optArgs opt)).2 c.injectProps
                  (selfInv_ctorExtend c (vs ++ optArgs opt) h1)
                rw [heq] at h3
                exact h3
        · rw [if_neg hfs]
          dsimp only
          split
          all_goals
            rename_i heq
            have h := ihP w s (Value.staticV c) c.injectProps hInv
            rw [heq] at h
            exact h
    · -- injectPropsRun
      intro w s inst props hInv
      cases props with
      | nil => exact hInv
      | cons pr rest =>
        obtain ⟨p, svcName⟩ := pr
        simp only [injectPropsRun]
        rcases hr : requireW n w s svcName none with ⟨w1, r1⟩
        have h1 : SelfInv sid nm w1 := by
          have h := ihR w s svcName none hInv
          rw [hr] at h
          exact h
        cases r1 with
        | error e =>
          dsimp only
          exact h1
        | ok v =>
          dsimp only
          exact ihP _ s inst rest (selfInv_propExtend inst p v h1)
    · -- requireMany
      intro w s deps hInv
      cases deps with
      | nil => exact hInv
      | cons nm1 rest =>
        simp only [requireMany]
        rcases hr : requireW n w s nm1 none with ⟨w1, r1⟩
        have h1 : SelfInv sid nm w1 := by
          have h := ihR w s nm1 none hInv
          rw [hr] at h
          exact h
        cases r1 with
        | error e =>
          dsimp only
          exact h1
        | ok v =>
          dsimp only
          rcases hm : requireMany n w1 s rest with ⟨w2, r2⟩
          have h2 : SelfInv sid nm w2 := by
            have h := ihM w1 s rest h1
            rw [hm] at h
            exact h
          cases r2 <;> dsimp only <;> exact h2
    · -- requireW
      intro w s svc opt hInv
      simp only [requireW]
      split
      · exact hInv
      split
      · exact hInv
      split
      · exact hInv
      split
      · exact ihC _ _ _ _ hInv
      · exact ihG _ _ _ _ _ hInv
    · -- getSingleton
      intro w s svc i opt hInv
      simp only [getSingleton]
      split
      · exact hInv
      rename_i sc hsc
      split
      · exact hInv
      rename_i l hl
      have hInv0 : SelfInv sid nm (allocCache w s svc l.length) :=
        selfInv_allocCache s svc l.length hInv
      split
      · exact hInv0
      split
      · exact hInv0
      rename_i d hd
      split
      · -- no affinity: construct locally and cache at (s, svc, i)
        split
        all_goals rename_i heq
        · have h := ihC (allocCache w s svc l.length) s d opt hInv0
          rw [heq] at h
          exact h
        · rename_i w2 v2
          have hInv2 : SelfInv sid nm w2 := by
            have h := ihC (allocCache w s svc l.length) s d opt hInv0
            rw [heq] at h
            exact h
          by_cases htar : s = sid ∧ svc = nm ∧ i = 0
          · obtain ⟨rfl, rfl, rfl⟩ := htar
            -- the target is the self-registration slot: the descriptor is
            -- the scope object and the constructed value is the scope itself
            obtain ⟨sc0, hsc0, -, hserv0, -⟩ := hInv
            rw [hsc0] at hsc
            injection hsc with hsc
            subst hsc
            rw [hserv0] at hl
            injection hl with hl
            subst hl
            simp only [List.get?] at hd
            injection hd with hd
            subst hd
            obtain ⟨hw2, hv2⟩ := construct_scopeRef heq
            subst hw2
            subst hv2
            exact selfInv_writeSlot_self 0 hInv0
          · exact selfInv_writeSlot_other s svc i v2 htar hInv2
      rename_i aff haff
      -- affinity present: if the target were the self-registration slot the
      -- descriptor would be the scope object, which has no affinity
      have htarX : ¬(s = sid ∧ svc = nm ∧ i = 0) := by
        rintro ⟨rfl, rfl, rfl⟩
        obtain ⟨sc0, hsc0, -, hserv0, -⟩ := hInv
        rw [hsc0] at hsc
        injection hsc with hsc
        subst hsc
        rw [hserv0] at hl
        injection hl with hl
        subst hl
        simp only [List.get?] at hd
        injection hd with hd
        rw [← hd] at haff
        cases haff
      split
      · rename_i c hwalk
        split
        · -- c = s
          split
          · exact hInv0
          · split
            all_goals rename_i heq
            · have h := ihC (allocCache w s svc l.length) s d opt hInv0
              rw [heq] at h
              exact h
            · rename_i w2 v2
              have hInv2 : SelfInv sid nm w2 := by
                have h := ihC (allocCache w s svc l.length) s d opt hInv0
                rw [heq] at h
                exact h
              exact selfInv_writeSlot_other s svc i v2 htarX hInv2
        · -- c ≠ s: ancestor branch
          rename_i hcs
          split
          · exact hInv0
          rename_i csc hcsc
          split
          · exact hInv0
          rename_i cl hcl
          split
          · -- descriptor not found in ancestor's list
            split
            · exact hInv0
            · split
              all_goals rename_i heq
              · have h := ihC (allocCache w s svc l.length) s d opt hInv0
                rw [heq] at h
                exact h
              · rename_i w2 v2
                have hInv2 : SelfInv sid nm w2 := by
                  have h := ihC (allocCache w s svc l.length) s d opt hInv0
                  rw [heq] at h
                  exact h
                exact selfInv_writeSlot_other s svc i v2 htarX hInv2
          · -- descriptor found at index j in the ancestor
            rename_i j hj
            have hInv1 : SelfInv sid nm
                (allocCache (allocCache w s svc l.length) c svc cl.length) :=
              selfInv_allocCache c svc cl.length hInv0
            have htarC : ¬(c = sid ∧ svc = nm) := by
              intro hcc
              obtain ⟨hc1, hc2⟩ := hcc
              obtain ⟨sc0, hsc0, -, hserv0, -⟩ := hInv0
              rw [hc1] at hcsc
              rw [hsc0] at hcsc
              injection hcsc with hcsc
              rw [hc2] at hcl
              rw [hcsc] at hserv0
              rw [hserv0] at hcl
              injection hcl with hcl
              have hds : Desc.scopeRef sid = d := by
                by_contra hne
                have hnone : cl.findIdx? (fun x => decide (x = d)) = none := by
                  rw [← hcl]
                  exact List.findIdx?_eq_none_iff.mpr (fun x hx => by
                    simp only [List.mem_singleton] at hx
                    subst hx
                    simp only [decide_eq_false_iff_not]
                    exact hne)
                rw [hj] at hnone
                cases hnone
              rw [← hds] at haff
              simp only [Desc.aff] at haff
              cases haff
            split
            · -- ancestor cache hit, propagate to (s, svc, i)
              rename_i v2 hsg2
              exact selfInv_writeSlot_other s svc i v2 htarX hInv1
            · -- construct in ancestor, cache in both
              split
              all_goals rename_i heq
              · have h := ihC (allocCache (allocCache w s svc l.length) c svc
                  cl.length) c d opt hInv1
                rw [heq] at h
                exact h
              · rename_i w2 v2
                have hInv2 : SelfInv sid nm w2 := by
                  have h := ihC (allocCache (allocCache w s svc l.length) c svc
                    cl.length) c d opt hInv1
                  rw [heq] at h
                  exact h
                refine selfInv_writeSlot_other s svc i v2 htarX ?_
                refine selfInv_writeSlot_other c svc j v2 ?_ hInv2
                rintro ⟨rfl, rfl, -⟩
                exact htarC ⟨rfl, rfl⟩
      · -- walk exhausted
        split
        · exact hInv0
        · split
          all_goals rename_i heq
          · have h := ihC (allocCache w s svc l.length) s d opt hInv0
            rw [heq] at h
            exact h
          · rename_i w2 v2
            have hInv2 : SelfInv sid nm w2 := by
              have h := ihC (allocCache w s svc l.length) s d opt hInv0
              rw [heq] at h
              exact h
            exact selfInv_writeSlot_other s svc i v2 htarX hInv2
    · -- getServicesAux
      intro w s svc l idx opt hInv
      cases l with
      | nil => exact hInv
      | cons d rest =>
        simp only [getServicesAux]
        rcases hr : (if d.isTransient = true then construct n w s d opt
            else getSingleton n w s svc idx opt) with ⟨w1, r1⟩
        have h1 : SelfInv sid nm w1 := by
          by_cases ht : d.isTransient = true
          · rw [if_pos ht] at hr
            have h := ihC w s d opt hInv
            rw [hr] at h
            exact h
          · rw [if_neg ht] at hr
            have h := ihG w s svc idx opt hInv
            rw [hr] at h
            exact h
        cases r1 with
        | error e =>
          dsimp only
          exact h1
        | ok v =>
          dsimp only
          rcases hm : getServicesAux n w1 s svc rest (idx + 1) opt with ⟨w2, r2⟩
          have h2 : SelfInv sid nm w2 := by
            have h := ihA w1 s svc rest (idx + 1) opt h1
            rw [hm] at h
            exact h
          cases r2 <;> dsimp only <;> exact h2

theorem selfInv_register_other {sid : Nat} {nm : String} {w : World}
    (s : Nat) (svc : String) (d : Desc)
    (hother : ¬(s = sid ∧ svc = nm)) (h : SelfInv sid nm w) :
    SelfInv sid nm (registerW w s svc d) := by
  obtain ⟨sc, hsc, hname, hserv, hslot⟩ := h
  by_cases hs : s = sid
  · subst hs
    have hsv : svc ≠ nm := fun hc => hother ⟨rfl, hc⟩
    rcases hls : lookupA sc.services svc with _ | lsv
    · refine ⟨⟨sc.scopeName, sc.parentScope, setA sc.services svc [d],
        sc.instances⟩, ?_, hname, ?_, ?_⟩
      · simp only [registerW]
        rw [scopeAt_updScope_eq, hsc]
        simp only [Option.map_some']
        rw [hls]
      · show lookupA (setA sc.services svc [d]) nm = _
        rw [lookupA_setA_ne _ _ _ _ hsv]
        exact hserv
      · intro v hv
        apply hslot v
        rw [← hv]
        simp only [slotAt, registerW]
        rw [scopeAt_updScope_eq, hsc]
        simp only [Option.map_some']
        rw [hls]
    · refine ⟨⟨sc.scopeName, sc.parentScope, setA sc.services svc (lsv ++ [d]),
        sc.instances⟩, ?_, hname, ?_, ?_⟩
      · simp only [registerW]
        rw [scopeAt_updScope_eq, hsc]
        simp only [Option.map_some']
        rw [hls]
      · show lookupA (setA sc.services svc (lsv ++ [d])) nm = _
        rw [lookupA_setA_ne _ _ _ _ hsv]
        exact hserv
      · intro v hv
        apply hslot v
        rw [← hv]
        simp only [slotAt, registerW]
        rw [scopeAt_updScope_eq, hsc]
        simp only [Option.map_some']
        rw [hls]
  · refine ⟨sc, ?_, hname, hserv, ?_⟩
    · simp only [registerW]
      rw [scopeAt_updScope_ne _ _ _ _ hs]
      exact hsc
    · intro v hv
      apply hslot v
      rw [← hv]
      simp only [slotAt, registerW]
      rw [scopeAt_updScope_ne _ _ _ _ hs]

theorem selfInv_makeScope (w : World) (nmw : String)
    (svcMap : List (String × List Desc)) (parent : Option Nat) :
    SelfInv (makeScope w nmw svcMap parent).2 nmw (makeScope w nmw svcMap parent).1 := by
  refine Exists.intro
    (⟨nmw, parent, setA svcMap nmw [.scopeRef w.scopes.length], []⟩ : Scope)
    ⟨?_, rfl, ?_, ?_⟩
  · show (w.scopes ++
      [(⟨nmw, parent, setA svcMap nmw [.scopeRef w.scopes.length], []⟩ : Scope)]).get?
        w.scopes.length = _
    rw [List.get?_concat_length]
  · exact lookupA_setA_eq _ _ _
  · intro v hv
    simp only [slotAt] at hv
    rw [show scopeAt (makeScope w nmw svcMap parent).1 (makeScope w nmw svcMap parent).2
        = some ⟨nmw, parent, setA svcMap nmw [.scopeRef w.scopes.length], []⟩ from by
      show (w.scopes ++ [_]).get? w.scopes.length = _
      rw [List.get?_concat_length]] at hv
    dsimp only at hv
    simp [lookupA] at hv

theorem selfInv_applyOps {sid : Nat} {nm : String} (fuel : Nat) :
    ∀ (ops : List Op) (w : World), SelfInv sid nm w →
    (∀ d, Op.reg sid nm d ∉ ops) →
    SelfInv sid nm (applyOps fuel w ops) := by
  intro ops
  induction ops with
  | nil => intro w h _; exact h
  | cons op rest ih =>
    intro w h hno
    simp only [applyOps]
    refine ih _ ?_ (fun d hd => hno d (List.mem_cons_of_mem _ hd))
    cases op with
    | reg s svc d =>
      refine selfInv_register_other s svc d ?_ h
      rintro ⟨rfl, rfl⟩
      exact hno d (List.mem_cons_self _ _)
    | req s svc opt =>
      exact (selfInv_resolution sid nm fuel).2.2.2.1 w s svc opt h
    | getSvcs s svc opt =>
      simp only [applyOp, getServicesW]
      split
      · exact h
      split
      · exact h
      split
      · exact h
      · exact (selfInv_resolution sid nm _).2.2.2.2.2 _ _ _ _ 0 _ h

theorem requireW_selfInv (fuel : Nat) {sid : Nat} {nm : String} {w : World}
    (opt : Option Nat) (h : SelfInv sid nm w) :
    (requireW (fuel + 4) w sid nm opt).2 = .ok (.scopeV sid) := by
  obtain ⟨sc, hsc, hname, hserv, hslot⟩ := h
  rcases hcache : slotAt w sid nm 0 with _ | v
  · -- not cached: the walkless static path constructs the scope value
    show (requireW (fuel + 3 + 1) w sid nm opt).2 = _
    simp only [requireW]
    rw [hsc]
    dsimp only
    rw [hserv]
    dsimp only
    simp only [List.getLast?_singleton]
    simp only [Desc.isTransient]
    rw [if_neg (by simp)]
    have hstep := getSingleton_static_step fuel opt hsc hserv
      (show ([Desc.scopeRef sid] : List Desc).get? 0 = some (.scopeRef sid) from rfl)
      rfl rfl rfl hcache
    rw [show ([Desc.scopeRef sid] : List Desc).length - 1 = 0 from rfl]
    rw [hstep]
    rfl
  · -- cached: the slot can only hold the scope object
    have hveq : v = .scopeV sid := hslot v hcache
    subst hveq
    have hc := requireW_cached (fuel + 2) opt hsc hserv
      (List.getLast?_singleton _) rfl
      (show slotAt w sid nm (([Desc.scopeRef sid] : List Desc).length - 1)
        = some (.scopeV sid) from hcache)
    rw [show fuel + 4 = fuel + 2 + 2 from rfl]
    rw [hc]

/-- **C9** (amended).  A scope created by the scoping operation keeps
resolving its own name to itself through any sequence of register and
resolution operations *that never registers another descriptor under
the scope's own name on that scope*: the self-registration entry stays
`[scope]`, its cache slot can only hold the scope object, and
`require(scopeName)` returns the scope itself.  (The claim's
unreserved "any sequence of register operations" fails: registering
under the scope's own name shadows the self-registration, since
`require` picks the last descriptor; see the counterexample.) -/
theorem claim9_scope_self_registration :
    ∀ (w0 : World) (nmw : String) (svcMap : List (String × List Desc))
      (parent : Option Nat) (ops : List Op) (fuel f₂ : Nat) (opt : Option Nat),
    (∀ d, Op.reg (makeScope w0 nmw svcMap parent).2 nmw d ∉ ops) →
    (requireW (f₂ + 4) (applyOps fuel (makeScope w0 nmw svcMap parent).1 ops)
      (makeScope w0 nmw svcMap parent).2 nmw opt).2
      = .ok (.scopeV (makeScope w0 nmw svcMap parent).2) := by
  intro w0 nmw svcMap parent ops fuel f₂ opt hno
  exact requireW_selfInv f₂ opt
    (selfInv_applyOps fuel ops _ (selfInv_makeScope w0 nmw svcMap parent) hno)

/-- **C9** counterexample: registering another descriptor under the
scope's own name makes `require(scopeName)` return an instance of that
descriptor instead of the scope object, because `require` resolves the
most-recently-registered descriptor. -/
theorem claim9_counterexample :
    (requireW 9 (registerW (makeScope ⟨[], 0, [], []⟩ "the-scope" [] none).1
        0 "the-scope" (.cls c9TranD)) 0 "the-scope" none).2
      = .ok (.objV 0) ∧ (Value.objV 0 : Value) ≠ .scopeV 0 := by decide

theorem claim9_scope_self_registration_witness :
    (requireW (1 + 4) (applyOps 9 (makeScope ⟨[], 0, [], []⟩ "s" [] none).1
        [.reg 0 "other" (.cls c9TranD), .req 0 "other" none,
         .getSvcs 0 "other" none])
      (makeScope ⟨[], 0, [], []⟩ "s" [] none).2 "s" none).2
      = .ok (.scopeV (makeScope ⟨[], 0, [], []⟩ "s" [] none).2) :=
  claim9_scope_self_registration ⟨[], 0, [], []⟩ "s" [] none
    [.reg 0 "other" (.cls c9TranD), .req 0 "other" none, .getSvcs 0 "other" none]
    9 1 none (by intro d; simp)

/-! ### Lifecycle and callService lemmas -/

/-- When every resolved implementation exposes the method, the pair
expansion is one bound step per implementation, in order. -/
theorem stepsFor_all_ok (w : World) (m : String) (l : List Value)
    (h : ∀ v ∈ l, hasMethod w v m = true) :
    stepsFor w (some m) l = .ok (l.map (fun v => Step.bound v m)) := by
  induction l with
  | nil => rfl
  | cons v rest ih =>
    have hv : hasMethod w v m = true := h v (List.mem_cons_self v rest)
    have hr := ih (fun u hu => h u (List.mem_cons_of_mem v hu))
    simp [stepsFor, hv, hr]

/-- One implementation lacking the method makes the whole pair
expansion raise a TypeError. -/
theorem stepsFor_mem_error (w : World) (m : String) (l : List Value)
    (v : Value) (hv : v ∈ l) (hm : hasMethod w v m = false) :
    stepsFor w (some m) l = .error .typeError := by
  induction l with
  | nil => cases hv
  | cons u rest ih =>
    rcases List.mem_cons.mp hv with h | h
    · subst h
      simp [stepsFor, hm]
    · by_cases hu : hasMethod w u m
      · simp [stepsFor, hu, ih h]
      · simp [stepsFor, hu]

/-- Build-time expansion of one (service, method) pair followed by
further arguments. -/
theorem buildSteps_pair (fuel : Nat) (w w1 w2 : World) (sid : Nat)
    (s m : String) (rest : List LArg) (svcs : List Value) (restSteps : List Step)
    (h1 : getServicesW fuel w sid s none = (w1, .ok svcs))
    (h2 : ∀ v ∈ svcs, hasMethod w1 v m = true)
    (h3 : buildSteps fuel w1 sid rest = (w2, .ok restSteps)) :
    buildSteps (fuel + 1) w sid (.name s :: .name m :: rest)
      = (w2, .ok (svcs.map (fun v => Step.bound v m) ++ restSteps)) := by
  simp only [buildSteps, h1, List.head?_cons, List.tail_cons,
    stepsFor_all_ok w1 m svcs h2, h3]

/-- Build-time expansion of a bare function argument. -/
theorem buildSteps_fn (fuel : Nat) (w w1 : World) (sid f : Nat)
    (rest : List LArg) (steps : List Step)
    (h : buildSteps fuel w sid rest = (w1, .ok steps)) :
    buildSteps (fuel + 1) w sid (.fn f :: rest)
      = (w1, .ok (.fnStep f :: steps)) := by
  simp only [buildSteps, h]

/-- A (service, method) pair whose resolved implementations include one
without the method raises a TypeError during the build. -/
theorem buildSteps_pair_error (fuel : Nat) (w w1 : World) (sid : Nat)
    (s m : String) (svcs : List Value) (v : Value)
    (h1 : getServicesW fuel w sid s none = (w1, .ok svcs))
    (hv : v ∈ svcs) (hm : hasMethod w1 v m = false) :
    buildSteps (fuel + 1) w sid [.name s, .name m]
      = (w1, .error .typeError) := by
  simp only [buildSteps, h1, List.head?_cons, List.tail_cons,
    stepsFor_mem_error w1 m svcs v hv hm]

/-- With no descriptor registered under the name, `callService` calls
`done()` immediately with no error and no world change. -/
theorem callServiceExec_empty (fuel : Nat) (w : World) (sid : Nat)
    (svc m : String) (opt : Option Nat) (beh : Value → Option Nat) (sc : Scope)
    (h1 : scopeAt w sid = some sc) (h2 : lookupA sc.services svc = none) :
    callServiceExec (fuel + 1) w sid svc m opt beh = (w, .ok ([], none)) := by
  simp only [callServiceExec, getServicesW, h1, h2]
  rfl

/-- The call chain equals its spec-side restatement `callSpec`. -/
theorem runCalls_eq_callSpec (w : World) (beh : Value → Option Nat) (m : String)
    (l : List Value) : runCalls w beh m l = callSpec w beh m l := by
  induction l with
  | nil => rfl
  | cons v rest ih =>
    by_cases hm : hasMethod w v m
    · cases hb : beh v with
      | some e => simp [runCalls, callSpec, hm, hb]
      | none =>
        cases hd : (rest.filter (fun u => hasMethod w u m)).dropWhile
            (fun u => (beh u).isNone) with
        | nil =>
          simp [callSpec, hd] at ih
          simp [runCalls, callSpec, hm, hb, hd, ih]
        | cons bad tl =>
          simp [callSpec, hd] at ih
          simp [runCalls, callSpec, hm, hb, hd, ih]
    · simp [runCalls, callSpec, hm, ih]

/-- An implementation that does not expose the method is skipped:
deleting it from the resolved list leaves the call chain unchanged. -/
theorem runCalls_skip (w : World) (beh : Value → Option Nat) (m : String)
    (v : Value) (hm : hasMethod w v m = false) (l1 l2 : List Value) :
    runCalls w beh m (l1 ++ v :: l2) = runCalls w beh m (l1 ++ l2) := by
  induction l1 with
  | nil => simp [runCalls, hm]
  | cons u t ih =>
    simp only [List.cons_append, runCalls, List.append_eq]
    rw [ih]

/-- The first responding implementation whose callback reports an error
terminates the chain: the calls that ran are the error-free responders
before it plus itself, `done` receives that error verbatim, and nothing
after it runs. -/
theorem runCalls_first_error (w : World) (beh : Value → Option Nat) (m : String)
    (e : Nat) (v : Value) (hm : hasMethod w v m = true) (he : beh v = some e)
    (l1 l2 : List Value) :
    (∀ u ∈ l1, hasMethod w u m = true → beh u = none) →
    runCalls w beh m (l1 ++ v :: l2)
      = (l1.filter (fun u => hasMethod w u m) ++ [v], some e) := by
  induction l1 with
  | nil =>
    intro _
    simp [runCalls, hm, he]
  | cons u t ih =>
    intro h
    have hu := h u (List.mem_cons_self u t)
    have ht := ih (fun x hx => h x (List.mem_cons_of_mem u hx))
    by_cases hum : hasMethod w u m
    · have hbu : beh u = none := hu hum
      simp [runCalls, hum, hbu, List.filter_cons, ht]
    · simp [runCalls, hum, List.filter_cons, ht]

/-- `callService` on a list containing a method-less implementation
behaves exactly as on the list with that implementation removed. -/
theorem callServiceExec_skip (fuel : Nat) (w w1 : World) (sid : Nat)
    (s m : String) (beh : Value → Option Nat) (svcs : List Value) (v : Value)
    (h1 : getServicesW fuel w sid s none = (w1, .ok svcs))
    (hm : hasMethod w1 v m = false) (l1 l2 : List Value)
    (hsv : svcs = l1 ++ v :: l2) :
    callServiceExec fuel w sid s m none beh
      = (w1, .ok (runCalls w1 beh m (l1 ++ l2))) := by
  simp only [callServiceExec, h1]
  rw [hsv, runCalls_skip w1 beh m v hm l1 l2]

/-- **C5**.  The step list of a lifecycle is fixed at build time: a
(serviceName, methodName) pair expands to one bound step per
implementation that `getServices` resolves during the build, in order;
a bare function becomes a single step; a lifecycle with zero steps
calls `done()` immediately with no error; and in the concrete example,
two pairs each resolving to two implementations plus one ad-hoc
function build exactly 5 steps in declared order, which all execute
serially — while a registration made after the build leaves the built
list untouched (execution reads only the fixed step list, never the
registry) even though rebuilding would now produce 6 steps. -/
theorem claim5_lifecycle_build :
    (∀ (fuel : Nat) (w w1 w2 : World) (sid : Nat) (s m : String)
       (rest : List LArg) (svcs : List Value) (restSteps : List Step),
       getServicesW fuel w sid s none = (w1, .ok svcs) →
       (∀ v ∈ svcs, hasMethod w1 v m = true) →
       buildSteps fuel w1 sid rest = (w2, .ok restSteps) →
       buildSteps (fuel + 1) w sid (.name s :: .name m :: rest)
         = (w2, .ok (svcs.map (fun v => Step.bound v m) ++ restSteps))) ∧
    (∀ (fuel : Nat) (w w1 : World) (sid f : Nat)
       (rest : List LArg) (steps : List Step),
       buildSteps fuel w sid rest = (w1, .ok steps) →
       buildSteps (fuel + 1) w sid (.fn f :: rest)
         = (w1, .ok (.fnStep f :: steps))) ∧
    (∀ beh : Step → Option Nat, runSteps beh [] = ([], none)) ∧
    ((buildSteps 9 c5World 0 c5Args).2 = .ok c5Steps ∧
     c5Steps.length = 5 ∧
     runSteps (fun _ => none) c5Steps = (c5Steps, none) ∧
     (buildSteps 9 (registerW (buildSteps 9 c5World 0 c5Args).1 0 "a"
        (.cls c5S5)) 0 c5Args).2 = .ok c5StepsAfter ∧
     c5StepsAfter.length = 6) :=
  ⟨buildSteps_pair, buildSteps_fn, fun _ => rfl, by decide⟩

theorem claim5_lifecycle_build_witness :
    buildSteps 9 c5WitWorld 0 [.name "a", .name "m", .fn 7]
      = (c5WitWorld, .ok ([Value.staticV c5S1, Value.staticV c5S2].map
          (fun v => Step.bound v "m") ++ [Step.fnStep 7])) :=
  claim5_lifecycle_build.1 8 c5WitWorld c5WitWorld c5WitWorld 0 "a" "m"
    [.fn 7] [.staticV c5S1, .staticV c5S2] [.fnStep 7]
    (by decide) (by decide) (by decide)

/-- **C6**.  The `callService` contract: with zero registered
descriptors `done()` is invoked immediately with no error and no state
change; the executed chain coincides with the claim's contract
(`callSpec`): instances are taken strictly in resolution order,
instances that do not expose the method are skipped and treated as
success, and the first error passed to a step's callback is handed to
`done` verbatim with no later implementation running. -/
theorem claim6_callService_contract :
    (∀ (fuel : Nat) (w : World) (sid : Nat) (svc m : String)
       (opt : Option Nat) (beh : Value → Option Nat) (sc : Scope),
       scopeAt w sid = some sc → lookupA sc.services svc = none →
       callServiceExec (fuel + 1) w sid svc m opt beh = (w, .ok ([], none))) ∧
    (∀ (w : World) (beh : Value → Option Nat) (m : String) (l : List Value),
       runCalls w beh m l = callSpec w beh m l) ∧
    (∀ (w : World) (beh : Value → Option Nat) (m : String) (v : Value),
       hasMethod w v m = false → ∀ l1 l2 : List Value,
       runCalls w beh m (l1 ++ v :: l2) = runCalls w beh m (l1 ++ l2)) ∧
    (∀ (w : World) (beh : Value → Option Nat) (m : String) (e : Nat) (v : Value),
       hasMethod w v m = true → beh v = some e → ∀ l1 l2 : List Value,
       (∀ u ∈ l1, hasMethod w u m = true → beh u = none) →
       runCalls w beh m (l1 ++ v :: l2)
         = (l1.filter (fun u => hasMethod w u m) ++ [v], some e)) :=
  ⟨callServiceExec_empty,
   runCalls_eq_callSpec,
   fun w beh m v hm l1 l2 => runCalls_skip w beh m v hm l1 l2,
   fun w beh m e v hm he l1 l2 h => runCalls_first_error w beh m e v hm he l1 l2 h⟩

theorem claim6_callService_contract_witness :
    callServiceExec 3 c6World 0 "missing" "mm" none (fun _ => none)
      = (c6World, .ok ([], none)) ∧
    runCalls c6World c6Beh "mm"
        ([Value.staticV c6Good] ++ Value.staticV c6Err :: [Value.staticV c6Tail])
      = ([Value.staticV c6Good].filter (fun u => hasMethod c6World u "mm")
          ++ [Value.staticV c6Err], some 5) :=
  ⟨claim6_callService_contract.1 2 c6World 0 "missing" "mm" none (fun _ => none)
     ⟨"root", none, [("svc", [.cls c6Good, .cls c6Err, .cls c6Tail])], []⟩
     rfl (by decide),
   claim6_callService_contract.2.2.2 c6World c6Beh "mm" 5 (.staticV c6Err)
     (by decide) (by decide) [.staticV c6Good] [.staticV c6Tail] (by decide)⟩

/-- **C10**.  Building a lifecycle with a (serviceName, methodName)
pair raises a TypeError at build time whenever some implementation
resolved at build time lacks the named method (`service[methodName]`
is `undefined`, so `.bind` raises), whereas `callService` skips such
implementations at execution time: deleting the method-less
implementation from the resolved list leaves the call chain unchanged.
Concretely, with one implementation lacking "m" and one exposing it,
the lifecycle build raises a TypeError while `callService` runs the
good implementation and completes without error. -/
theorem claim10_lifecycle_bind_typeerror :
    (∀ (w : World) (m : String) (svcs : List Value) (v : Value),
       v ∈ svcs → hasMethod w v m = false →
       stepsFor w (some m) svcs = .error .typeError) ∧
    (∀ (fuel : Nat) (w w1 : World) (sid : Nat) (s m : String)
       (svcs : List Value) (v : Value),
       getServicesW fuel w sid s none = (w1, .ok svcs) →
       v ∈ svcs → hasMethod w1 v m = false →
       buildSteps (fuel + 1) w sid [.name s, .name m]
         = (w1, .error .typeError)) ∧
    (∀ (fuel : Nat) (w w1 : World) (sid : Nat) (s m : String)
       (beh : Value → Option Nat) (svcs : List Value) (v : Value),
       getServicesW fuel w sid s none = (w1, .ok svcs) →
       hasMethod w1 v m = false → ∀ l1 l2 : List Value, svcs = l1 ++ v :: l2 →
       callServiceExec fuel w sid s m none beh
         = (w1, .ok (runCalls w1 beh m (l1 ++ l2)))) ∧
    ((buildSteps 9 c10World 0 [.name "svc", .name "m"]).2
       = .error .typeError ∧
     (callServiceExec 9 c10World 0 "svc" "m" none (fun _ => none)).2
       = .ok ([.staticV c10Good], none)) :=
  ⟨fun w m svcs v hv hm => stepsFor_mem_error w m svcs v hv hm,
   fun fuel w w1 sid s m svcs v h1 hv hm =>
     buildSteps_pair_error fuel w w1 sid s m svcs v h1 hv hm,
   fun fuel w w1 sid s m beh svcs v h1 hm l1 l2 hsv =>
     callServiceExec_skip fuel w w1 sid s m beh svcs v h1 hm l1 l2 hsv,
   by decide⟩

theorem claim10_lifecycle_bind_typeerror_witness :
    buildSteps 5 c10WitWorld 0 [.name "svc", .name "m"]
      = (c10WitWorld, .error .typeError) :=
  claim10_lifecycle_bind_typeerror.2.1 4 c10WitWorld c10WitWorld 0 "svc" "m"
    [.staticV c10Bad, .staticV c10Good] (.staticV c10Bad)
    (by decide) (by decide) (by decide)

end DecentInjection
